import Mathlib

/-! # RBC Mini68K emulator (`mini68k.c`): bus dispatch, ROM overlay, NS32202 register file

A shallow embedding of the memory and I/O layer of `src/mini68k.c`.

* C global variables (`ram`, `rom`, `u27`, `mfpic_cfg`, `ns202`, `irq_pending`) are the
  fields of one record, `Machine`, passed explicitly.
* `uint8_t` objects are natural numbers; every store into one is reduced `% 256`.
  `unsigned int` arithmetic that can overflow is reduced `% 2 ^ 32`.
* The chip models behind `16x50.h`, `ppide.h` and `rtc_bitbang.h` are not part of the
  file: they are a record `Ext D` of transitions over an abstract device state `D`.
  A statement that holds for every `Ext D` and leaves `dev` unchanged therefore says
  that no chip function was called.
* `fprintf` trace output does not touch emulated state and is left out.
* In `a | b` with two calls C leaves the order open; the model evaluates left to right.
-/

namespace Mini68k

/-! ## Data model -/

/-- The record `struct ns32202`: 32 byte registers, a priority and two counters. -/
structure ns32202 where
  reg : Nat → Nat
  pri : Nat
  ct_l : Nat
  ct_h : Nat

abbrev R_HVCT : Nat := 0
abbrev R_SVCT : Nat := 1
abbrev R_ELTG : Nat := 2
abbrev R_TPR : Nat := 4
abbrev R_IPND : Nat := 6
abbrev R_ISRV : Nat := 8
abbrev R_IMSK : Nat := 10
abbrev R_CSRC : Nat := 12
abbrev R_FPRT : Nat := 14
abbrev R_MCTL : Nat := 16
abbrev R_OCASN : Nat := 17
abbrev R_CIPTR : Nat := 18
abbrev R_PDAT : Nat := 19
abbrev R_IPS : Nat := 20
abbrev R_PDIR : Nat := 21
abbrev R_CCTL : Nat := 22
abbrev R_CICTL : Nat := 23
abbrev R_CSV : Nat := 24
abbrev R_CCV : Nat := 28

/-- The chip models the bus calls into (UART, PPIDE, bit-banged RTC); their code lives
outside `mini68k.c`, so each entry point is a transition on a device state `D`. -/
structure Ext (D : Type) where
  rtc_read : D → Nat × D
  rtc_write : D → Nat → D
  ppide_read : D → Nat → Nat × D
  ppide_write : D → Nat → Nat → D
  ppide_reset : D → D
  uart16x50_read : D → Nat → Nat × D
  uart16x50_write : D → Nat → Nat → D
  uart16x50_reset : D → D
  uart16x50_set_input : D → Nat → D

/-- All file-scope state of `mini68k.c` that the bus layer reads or writes. -/
structure Machine (D : Type) where
  ram : Nat → Nat
  rom : Nat → Nat
  u27 : Nat
  mfpic_cfg : Nat
  ns202 : ns32202
  irq_pending : Nat
  dev : D

/-- A store `ns202.reg[r] = v` into the `uint8_t` register array. -/
def ns32202.setReg (n : ns32202) (r v : Nat) : ns32202 :=
  { n with reg := fun i => if i = r then v % 256 else n.reg i }

/-- A store `ram[a] = v` into the `uint8_t` RAM array. -/
def Machine.setRam {D : Type} (s : Machine D) (a v : Nat) : Machine D :=
  { s with ram := fun i => if i = a then v % 256 else s.ram i }

/-! ## NS32202 interrupt controller -/

/-- `ns202_read`: every case returns the addressed register, except that `R_SVCT`
reads `R_HVCT`. -/
def ns202_read (n : ns32202) (address : Nat) : Nat :=
  let ns32_reg := (address >>> 8) &&& 0x1F
  if ns32_reg = R_HVCT then n.reg R_HVCT
  else if ns32_reg = R_SVCT then n.reg R_HVCT
  else n.reg ns32_reg

/-- `ns202_write`, case by case as in the source `switch` (the literal `70` in the
`R_CICTL` case is decimal, as written there). -/
def ns202_write (n : ns32202) (address value : Nat) : ns32202 :=
  let ns32_reg := (address >>> 8) &&& 0x1F
  if ns32_reg = R_HVCT then n.setReg R_HVCT value
  else if ns32_reg = R_SVCT then
    let n1 := n.setReg R_HVCT (n.reg R_HVCT &&& 0x0F)
    n1.setReg R_HVCT (n1.reg R_HVCT ||| (value &&& 0xF0))
  else if ns32_reg = R_IPND ∨ ns32_reg = R_IPND + 1 then n
  else if ns32_reg = R_FPRT then n
  else if ns32_reg = R_FPRT + 1 then n
  else if ns32_reg = R_CCTL then
    let n1 := n.setReg ns32_reg (n.reg ns32_reg &&& 0xFC)
    n1.setReg ns32_reg value
  else if ns32_reg = R_CICTL then
    let n1 :=
      if value &&& 0x08 ≠ 0 then
        let m := n.setReg ns32_reg (n.reg ns32_reg &&& 0xF0)
        m.setReg ns32_reg (m.reg ns32_reg ||| (value &&& 7))
      else n
    if value &&& 0x80 ≠ 0 then
      let m := n1.setReg ns32_reg (n1.reg ns32_reg &&& 0x0F)
      m.setReg ns32_reg (m.reg ns32_reg ||| (value &&& 70))
    else n1
  else n.setReg ns32_reg value

/-- `ns202_raise`: dropped when the FRZ bit of `R_MCTL` is set. -/
def ns202_raise (n : ns32202) (irq : Nat) : ns32202 :=
  let ib := (1 <<< (irq &&& 7)) % 2 ^ 32
  let ir := if irq &&& 8 ≠ 0 then 1 else 0
  if n.reg R_MCTL &&& 0x08 ≠ 0 then n
  else n.setReg (R_IPND + ir) (n.reg (R_IPND + ir) ||| ib)

/-- `ns202_reset`: three stores, nothing else. -/
def ns202_reset (n : ns32202) : ns32202 :=
  ((n.setReg R_IMSK 0xFF).setReg (R_IMSK + 1) 0xFF).setReg R_CIPTR 0xFF

/-! ## MF/PIC configuration register and RTC bit remapping -/

def cfg_read {D : Type} (s : Machine D) : Nat := s.mfpic_cfg

def cfg_write {D : Type} (s : Machine D) (value : Nat) : Machine D :=
  { s with mfpic_cfg := value % 256 }

def rtc_remap_w (v : Nat) : Nat :=
  let r := 0
  let r := if v &&& 1 ≠ 0 then r ||| 0x80 else r
  let r := if v &&& 2 = 0 then r ||| 0x20 else r
  let r := if v &&& 4 ≠ 0 then r ||| 0x40 else r
  let r := if v &&& 8 = 0 then r ||| 0x10 else r
  r

def rtc_remap_r (v : Nat) : Nat :=
  let r := 0
  let r := if v &&& 0x01 ≠ 0 then r ||| 0x01 else r
  r

/-! ## Bus dispatch -/

/-- The two statements `u27 <<= 1; u27 |= 1;` on the `uint8_t` overlay register. -/
def shift_u27 (u : Nat) : Nat := ((u <<< 1) % 256) ||| 1

/-- `do_cpu_read_byte`: returns the byte read and the machine afterwards. -/
def do_cpu_read_byte {D : Type} (E : Ext D) (s : Machine D) (address debug : Nat) :
    Nat × Machine D :=
  let address := address &&& 0x3FFFFF
  if s.u27 &&& 0x80 = 0 then
    let s1 := if debug = 0 then { s with u27 := shift_u27 s.u27 } else s
    (s1.rom (address &&& 0x1FFFF), s1)
  else
    let s1 := if debug = 0 then { s with u27 := shift_u27 s.u27 } else s
    if address < 0x200000 then (s1.ram address, s1)
    else if address < 0x380000 then (0xFF, s1)
    else if address < 0x3F0000 then (s1.rom (address &&& 0x1FFFF), s1)
    else if debug ≠ 0 then (0xFF, s1)
    else
      let address := address &&& 0xFFFF
      let lo := address &&& 0xFF
      if lo = 0x40 then (ns202_read s1.ns202 address, s1)
      else if lo = 0x42 then (cfg_read s1, s1)
      else if lo = 0x43 then
        let r := E.rtc_read s1.dev
        (rtc_remap_r r.1, { s1 with dev := r.2 })
      else if lo = 0x44 ∨ lo = 0x45 ∨ lo = 0x46 ∨ lo = 0x47 then
        let r := E.ppide_read s1.dev (address &&& 0x03)
        (r.1, { s1 with dev := r.2 })
      else if lo = 0x48 ∨ lo = 0x49 ∨ lo = 0x4A ∨ lo = 0x4B ∨
          lo = 0x4C ∨ lo = 0x4D ∨ lo = 0x4E ∨ lo = 0x4F then
        let r := E.uart16x50_read s1.dev (address &&& 0x07)
        (r.1, { s1 with dev := r.2 })
      else (0xFF, s1)

def cpu_read_byte {D : Type} (E : Ext D) (s : Machine D) (address : Nat) :
    Nat × Machine D :=
  do_cpu_read_byte E s address 0

def do_cpu_read_word {D : Type} (E : Ext D) (s : Machine D) (address debug : Nat) :
    Nat × Machine D :=
  let b1 := do_cpu_read_byte E s address debug
  let b2 := do_cpu_read_byte E b1.2 ((address + 1) % 2 ^ 32) debug
  (((b1.1 <<< 8) % 2 ^ 32) ||| b2.1, b2.2)

def cpu_read_word {D : Type} (E : Ext D) (s : Machine D) (address : Nat) :
    Nat × Machine D :=
  do_cpu_read_word E s address 0

def cpu_read_word_dasm {D : Type} (E : Ext D) (s : Machine D) (address : Nat) :
    Nat × Machine D :=
  do_cpu_read_word E s address 1

def cpu_read_long {D : Type} (E : Ext D) (s : Machine D) (address : Nat) :
    Nat × Machine D :=
  let w1 := cpu_read_word E s address
  let w2 := cpu_read_word E w1.2 ((address + 2) % 2 ^ 32)
  (((w1.1 <<< 16) % 2 ^ 32) ||| w2.1, w2.2)

def cpu_read_long_dasm {D : Type} (E : Ext D) (s : Machine D) (address : Nat) :
    Nat × Machine D :=
  let w1 := cpu_read_word_dasm E s address
  let w2 := cpu_read_word_dasm E w1.2 ((address + 2) % 2 ^ 32)
  (((w1.1 <<< 16) % 2 ^ 32) ||| w2.1, w2.2)

/-- `cpu_write_byte`: note that the I/O branch reduces the address to its low byte
before the `switch`, and it is this reduced address that `ns202_write` receives. -/
def cpu_write_byte {D : Type} (E : Ext D) (s : Machine D) (address value : Nat) :
    Machine D :=
  let address := address &&& 0x3FFFFF
  if s.u27 &&& 0x80 = 0 then
    { s with u27 := shift_u27 s.u27 }
  else
    let s1 := { s with u27 := shift_u27 s.u27 }
    if address < 0x200000 then s1.setRam address value
    else if address < 0x3F0000 then s1
    else
      let address := address &&& 0xFF
      if address = 0x40 then { s1 with ns202 := ns202_write s1.ns202 address value }
      else if address = 0x42 then cfg_write s1 value
      else if address = 0x43 then
        { s1 with dev := E.rtc_write s1.dev (rtc_remap_w value) }
      else if address = 0x44 ∨ address = 0x45 ∨ address = 0x46 ∨ address = 0x47 then
        { s1 with dev := E.ppide_write s1.dev (address &&& 0x03) value }
      else if address = 0x48 ∨ address = 0x49 ∨ address = 0x4A ∨ address = 0x4B ∨
          address = 0x4C ∨ address = 0x4D ∨ address = 0x4E ∨ address = 0x4F then
        { s1 with dev := E.uart16x50_write s1.dev (address &&& 7) value }
      else s1

def cpu_write_word {D : Type} (E : Ext D) (s : Machine D) (address value : Nat) :
    Machine D :=
  let address := address &&& 0xFFFFFF
  let s1 := cpu_write_byte E s address (value >>> 8)
  cpu_write_byte E s1 (address + 1) (value &&& 0xFF)

def cpu_write_long {D : Type} (E : Ext D) (s : Machine D) (address value : Nat) :
    Machine D :=
  let address := address &&& 0xFFFFFF
  let s1 := cpu_write_word E s address (value >>> 16)
  cpu_write_word E s1 (address + 2) (value &&& 0xFFFF)

def cpu_write_pd {D : Type} (E : Ext D) (s : Machine D) (address value : Nat) :
    Machine D :=
  let address := address &&& 0xFFFFFF
  let s1 := cpu_write_word E s (address + 2) (value &&& 0xFFFF)
  cpu_write_word E s1 address (value >>> 16)

/-! ## Device lifecycle -/

def device_init {D : Type} (E : Ext D) (s : Machine D) : Machine D :=
  let s1 := { s with irq_pending := 0 }
  let s2 := { s1 with dev := E.ppide_reset s1.dev }
  let s3 := { s2 with dev := E.uart16x50_reset s2.dev }
  { s3 with dev := E.uart16x50_set_input s3.dev 1 }

def cpu_pulse_reset {D : Type} (E : Ext D) (s : Machine D) : Machine D :=
  device_init E s

/-- The machine when `main` enters its run loop, before `device_init`: statics are zero,
`ram` was filled with `0xA7` by `memset`, `rom` holds the image read from the file. -/
def power_on {D : Type} (romImage : Nat → Nat) (d : D) : Machine D :=
  { ram := fun _ => 0xA7
    rom := romImage
    u27 := 0
    mfpic_cfg := 0
    ns202 := { reg := fun _ => 0, pri := 0, ct_l := 0, ct_h := 0 }
    irq_pending := 0
    dev := d }

/-! ## Access sequences and a recording device model -/

/-- One byte access on the bus, as the CPU core or the disassembler issues it. -/
inductive Access where
  | read (address debug : Nat)
  | write (address value : Nat)

/-- The machine after one access. -/
def Access.step {D : Type} (E : Ext D) (s : Machine D) : Access → Machine D
  | .read address debug => (do_cpu_read_byte E s address debug).2
  | .write address value => cpu_write_byte E s address value

/-- The machine after a sequence of accesses, first to last. -/
def runAccesses {D : Type} (E : Ext D) (s : Machine D) (xs : List Access) : Machine D :=
  xs.foldl (Access.step E) s

/-- Whether an access is a real bus cycle (anything but a debug read). -/
def Access.nonDebug : Access → Bool
  | .read _ debug => debug == 0
  | .write _ _ => true

/-- The calls a device model can receive. -/
inductive DevCall where
  | rtc_read
  | rtc_write (v : Nat)
  | ppide_read (r : Nat)
  | ppide_write (r v : Nat)
  | ppide_reset
  | uart16x50_read (r : Nat)
  | uart16x50_write (r v : Nat)
  | uart16x50_reset
  | uart16x50_set_input (v : Nat)
  deriving DecidableEq, Repr

/-- A device model that only records the calls it receives (latest first) and answers
every read with `0`. -/
def logExt : Ext (List DevCall) where
  rtc_read := fun d => (0, DevCall.rtc_read :: d)
  rtc_write := fun d v => DevCall.rtc_write v :: d
  ppide_read := fun d r => (0, DevCall.ppide_read r :: d)
  ppide_write := fun d r v => DevCall.ppide_write r v :: d
  ppide_reset := fun d => DevCall.ppide_reset :: d
  uart16x50_read := fun d r => (0, DevCall.uart16x50_read r :: d)
  uart16x50_write := fun d r v => DevCall.uart16x50_write r v :: d
  uart16x50_reset := fun d => DevCall.uart16x50_reset :: d
  uart16x50_set_input := fun d v => DevCall.uart16x50_set_input v :: d

/-- A ROM image with a recognisable byte at every offset. -/
def demoRom : Nat → Nat := fun i => (i + 0x11) % 256

/-- The recording machine at power-on. -/
def boot : Machine (List DevCall) := power_on demoRom []

/-- The recording machine once the overlay has collapsed (`u27 = 0xFF`). -/
def normal : Machine (List DevCall) := { boot with u27 := 0xFF }

/-- The overlay register values the sequence `0, 1, 3, ..., 0xFF` runs through. -/
def overlayValues : List Nat := [0x00, 0x01, 0x03, 0x07, 0x0F, 0x1F, 0x3F, 0x7F, 0xFF]

/-! ## Statements of the interface tables, and sample register files -/

/-- The clock write remap as the interface table words it, one logical bit at a time:
bit 0 set gives `0x80`, bit 1 clear gives `0x20`, bit 2 set gives `0x40`, bit 3 clear
gives `0x10`. It is compared with `rtc_remap_w`, the code. -/
def rtc_remap_w_spec (v : Nat) : Nat :=
  (if v.testBit 0 then 0x80 else 0) ||| (if v.testBit 1 then 0 else 0x20) |||
    (if v.testBit 2 then 0x40 else 0) ||| (if v.testBit 3 then 0 else 0x10)

/-- The inverse mapping of the clock round-trip property, physical to logical:
bit 0 is `p & 0x80`, bit 1 is the complement of `p & 0x20`, bit 2 is `p & 0x40`,
bit 3 is the complement of `p & 0x10`. The source has no such function. -/
def rtc_remap_dec (p : Nat) : Nat :=
  (if p &&& 0x80 ≠ 0 then 1 else 0) ||| (if p &&& 0x20 = 0 then 2 else 0) |||
    (if p &&& 0x40 ≠ 0 then 4 else 0) ||| (if p &&& 0x10 = 0 then 8 else 0)

/-- The register file of the zero-initialised static `ns202`. -/
def zeroRegs : ns32202 := { reg := fun _ => 0, pri := 0, ct_l := 0, ct_h := 0 }

/-- A register file with the freeze bit (`0x08` of `R_MCTL`) set. -/
def frozenRegs : ns32202 := zeroRegs.setReg R_MCTL 0x08

/-! ## Masks as remainders -/

theorem and_3FFFFF (a : Nat) : a &&& 0x3FFFFF = a % 0x400000 :=
  Nat.and_pow_two_sub_one_eq_mod a 22

theorem and_FFFFFF (a : Nat) : a &&& 0xFFFFFF = a % 0x1000000 :=
  Nat.and_pow_two_sub_one_eq_mod a 24

theorem and_1FFFF (a : Nat) : a &&& 0x1FFFF = a % 0x20000 :=
  Nat.and_pow_two_sub_one_eq_mod a 17

theorem and_FFFF (a : Nat) : a &&& 0xFFFF = a % 0x10000 :=
  Nat.and_pow_two_sub_one_eq_mod a 16

theorem and_FF (a : Nat) : a &&& 0xFF = a % 0x100 :=
  Nat.and_pow_two_sub_one_eq_mod a 8

/-! ## The overlay register along a run -/

theorem shift_u27_ovl (k : Nat) (hk : k < 8) :
    (2 ^ k - 1) &&& 0x80 = 0 ∧ shift_u27 (2 ^ k - 1) = 2 ^ (k + 1) - 1 := by
  interval_cases k <;> exact ⟨by decide, by decide⟩

theorem shift_u27_FF : shift_u27 0xFF = 0xFF := by decide

theorem read_u27 {D : Type} (E : Ext D) (s : Machine D) (a d : Nat) :
    (do_cpu_read_byte E s a d).2.u27 = if d = 0 then shift_u27 s.u27 else s.u27 := by
  unfold do_cpu_read_byte
  by_cases hd : d = 0
  · simp only [hd, if_true, apply_ite Prod.snd, apply_ite Machine.u27, ite_self]
  · simp only [hd, if_false, apply_ite Prod.snd, apply_ite Machine.u27, ite_self]

theorem write_u27 {D : Type} (E : Ext D) (s : Machine D) (a v : Nat) :
    (cpu_write_byte E s a v).u27 = shift_u27 s.u27 := by
  unfold cpu_write_byte
  simp only [apply_ite Machine.u27, Machine.setRam, cfg_write, ite_self]

theorem read_rom {D : Type} (E : Ext D) (s : Machine D) (a d : Nat) :
    (do_cpu_read_byte E s a d).2.rom = s.rom := by
  unfold do_cpu_read_byte
  by_cases hd : d = 0
  · simp only [hd, if_true, apply_ite Prod.snd, apply_ite Machine.rom, ite_self]
  · simp only [hd, if_false, apply_ite Prod.snd, apply_ite Machine.rom, ite_self]

theorem write_rom {D : Type} (E : Ext D) (s : Machine D) (a v : Nat) :
    (cpu_write_byte E s a v).rom = s.rom := by
  unfold cpu_write_byte
  simp only [apply_ite Machine.rom, Machine.setRam, cfg_write, ite_self]

theorem read_debug {D : Type} (E : Ext D) (s : Machine D) (a d : Nat) (hd : d ≠ 0) :
    (do_cpu_read_byte E s a d).2 = s := by
  unfold do_cpu_read_byte
  simp only [hd, if_false, apply_ite Prod.snd, ite_self, ne_eq, not_false_eq_true, if_true]

/-- While bit 7 of `u27` is clear a read returns the ROM byte, whatever the address. -/
theorem read_overlaid {D : Type} (E : Ext D) (s : Machine D) (a d : Nat)
    (h : s.u27 &&& 0x80 = 0) :
    do_cpu_read_byte E s a d =
      (s.rom (a &&& 0x3FFFFF &&& 0x1FFFF),
        if d = 0 then { s with u27 := shift_u27 s.u27 } else s) := by
  unfold do_cpu_read_byte
  by_cases hd : d = 0
  · simp only [h, hd, if_true]
  · simp only [h, hd, if_true, if_false]

/-- While bit 7 of `u27` is clear a write only shifts the overlay register. -/
theorem write_overlaid {D : Type} (E : Ext D) (s : Machine D) (a v : Nat)
    (h : s.u27 &&& 0x80 = 0) :
    cpu_write_byte E s a v = { s with u27 := shift_u27 s.u27 } := by
  unfold cpu_write_byte
  simp only [h, if_true]

theorem step_u27 {D : Type} (E : Ext D) (s : Machine D) (x : Access) :
    (x.step E s).u27 = s.u27 ∨ (x.step E s).u27 = shift_u27 s.u27 := by
  cases x with
  | read a d =>
    simp only [Access.step, read_u27]
    split_ifs
    · exact Or.inr rfl
    · exact Or.inl rfl
  | write a v => exact Or.inr (write_u27 E s a v)

theorem step_rom {D : Type} (E : Ext D) (s : Machine D) (x : Access) :
    (x.step E s).rom = s.rom := by
  cases x with
  | read a d => exact read_rom E s a d
  | write a v => exact write_rom E s a v

theorem step_overlaid {D : Type} (E : Ext D) (s : Machine D) (x : Access) (k : Nat)
    (hk : k < 8) (hu : s.u27 = 2 ^ k - 1) (hx : x.nonDebug = true) :
    x.step E s = { s with u27 := 2 ^ (k + 1) - 1 } := by
  obtain ⟨h1, h2⟩ := shift_u27_ovl k hk
  rw [← hu] at h1 h2
  cases x with
  | read a d =>
    have hd : d = 0 := by simpa [Access.nonDebug] using hx
    subst hd
    simp only [Access.step, read_overlaid E s a 0 h1, if_true, h2]
  | write a v =>
    simp only [Access.step, write_overlaid E s a v h1, h2]

theorem run_overlaid {D : Type} (E : Ext D) (xs : List Access) :
    ∀ (s : Machine D) (k : Nat), k + xs.length ≤ 8 → s.u27 = 2 ^ k - 1 →
      (∀ x ∈ xs, x.nonDebug = true) →
      runAccesses E s xs = { s with u27 := 2 ^ (k + xs.length) - 1 } := by
  induction xs with
  | nil =>
    intro s k _ hu _
    cases s
    simp only [runAccesses, List.foldl_nil, List.length_nil, Nat.add_zero] at *
    rw [hu]
  | cons x xs ih =>
    intro s k hk hu hnd
    simp only [List.length_cons] at hk
    have hx := step_overlaid E s x k (by omega) hu (hnd x (List.mem_cons_self _ _))
    have := ih (x.step E s) (k + 1) (by omega) (by rw [hx])
      (fun y hy => hnd y (List.mem_cons_of_mem _ hy))
    simp only [runAccesses, List.foldl_cons, List.length_cons] at this ⊢
    rw [this, hx]
    have e : k + 1 + xs.length = k + (xs.length + 1) := by omega
    rw [e]

theorem run_collapsed {D : Type} (E : Ext D) (xs : List Access) :
    ∀ s : Machine D, s.u27 = 0xFF → (runAccesses E s xs).u27 = 0xFF := by
  induction xs with
  | nil => intro s h; exact h
  | cons x xs ih =>
    intro s h
    simp only [runAccesses, List.foldl_cons]
    apply ih
    rcases step_u27 E s x with e | e
    · rw [e, h]
    · rw [e, h, shift_u27_FF]

theorem run_rom {D : Type} (E : Ext D) (xs : List Access) :
    ∀ s : Machine D, (runAccesses E s xs).rom = s.rom := by
  induction xs with
  | nil => intro s; rfl
  | cons x xs ih =>
    intro s
    simp only [runAccesses, List.foldl_cons]
    exact (ih (x.step E s)).trans (step_rom E s x)

theorem run_append {D : Type} (E : Ext D) (s : Machine D) (xs ys : List Access) :
    runAccesses E s (xs ++ ys) = runAccesses E (runAccesses E s xs) ys := by
  simp [runAccesses, List.foldl_append]

/-! ## Reads and writes once bit 7 of `u27` is set -/

theorem and_3FFFFF_1FFFF (a : Nat) : a &&& 0x3FFFFF &&& 0x1FFFF = a &&& 0x1FFFF := by
  rw [and_3FFFFF, and_1FFFF, and_1FFFF]
  exact Nat.mod_mod_of_dvd a (by decide)

/-- The machine after the overlay register has been advanced by a real bus cycle. -/
theorem read_collapsed_ram {D : Type} (E : Ext D) (s : Machine D) (a d : Nat)
    (h : s.u27 &&& 0x80 ≠ 0) (ha : a &&& 0x3FFFFF < 0x200000) :
    do_cpu_read_byte E s a d =
      (s.ram (a &&& 0x3FFFFF), if d = 0 then { s with u27 := shift_u27 s.u27 } else s) := by
  unfold do_cpu_read_byte
  by_cases hd : d = 0
  · simp only [h, ha, hd, if_true, if_false]
  · simp only [h, ha, hd, if_true, if_false]

theorem read_collapsed_fixed {D : Type} (E : Ext D) (s : Machine D) (a d : Nat)
    (h : s.u27 &&& 0x80 ≠ 0) (h1 : 0x200000 ≤ a &&& 0x3FFFFF)
    (h2 : a &&& 0x3FFFFF < 0x380000) :
    do_cpu_read_byte E s a d =
      (0xFF, if d = 0 then { s with u27 := shift_u27 s.u27 } else s) := by
  unfold do_cpu_read_byte
  have n1 : ¬ (a &&& 0x3FFFFF < 0x200000) := by omega
  by_cases hd : d = 0
  · simp only [h, n1, h2, hd, if_true, if_false]
  · simp only [h, n1, h2, hd, if_true, if_false]

theorem read_collapsed_rom {D : Type} (E : Ext D) (s : Machine D) (a d : Nat)
    (h : s.u27 &&& 0x80 ≠ 0) (h1 : 0x380000 ≤ a &&& 0x3FFFFF)
    (h2 : a &&& 0x3FFFFF < 0x3F0000) :
    do_cpu_read_byte E s a d =
      (s.rom (a &&& 0x3FFFFF &&& 0x1FFFF),
        if d = 0 then { s with u27 := shift_u27 s.u27 } else s) := by
  unfold do_cpu_read_byte
  have n1 : ¬ (a &&& 0x3FFFFF < 0x200000) := by omega
  have n2 : ¬ (a &&& 0x3FFFFF < 0x380000) := by omega
  by_cases hd : d = 0
  · simp only [h, n1, n2, h2, hd, if_true, if_false]
  · simp only [h, n1, n2, h2, hd, if_true, if_false]

theorem read_collapsed_io_debug {D : Type} (E : Ext D) (s : Machine D) (a d : Nat)
    (h : s.u27 &&& 0x80 ≠ 0) (h1 : 0x3F0000 ≤ a &&& 0x3FFFFF) (hd : d ≠ 0) :
    do_cpu_read_byte E s a d = (0xFF, s) := by
  unfold do_cpu_read_byte
  have n1 : ¬ (a &&& 0x3FFFFF < 0x200000) := by omega
  have n2 : ¬ (a &&& 0x3FFFFF < 0x380000) := by omega
  have n3 : ¬ (a &&& 0x3FFFFF < 0x3F0000) := by omega
  simp only [h, n1, n2, n3, hd, if_true, if_false, ne_eq, not_false_eq_true]

theorem write_collapsed_ram {D : Type} (E : Ext D) (s : Machine D) (a v : Nat)
    (h : s.u27 &&& 0x80 ≠ 0) (ha : a &&& 0x3FFFFF < 0x200000) :
    cpu_write_byte E s a v =
      ({ s with u27 := shift_u27 s.u27 } : Machine D).setRam (a &&& 0x3FFFFF) v := by
  unfold cpu_write_byte
  simp only [h, ha, if_true, if_false]

theorem write_collapsed_invalid {D : Type} (E : Ext D) (s : Machine D) (a v : Nat)
    (h : s.u27 &&& 0x80 ≠ 0) (h1 : 0x200000 ≤ a &&& 0x3FFFFF)
    (h2 : a &&& 0x3FFFFF < 0x3F0000) :
    cpu_write_byte E s a v = { s with u27 := shift_u27 s.u27 } := by
  unfold cpu_write_byte
  have n1 : ¬ (a &&& 0x3FFFFF < 0x200000) := by omega
  simp only [h, n1, h2, if_true, if_false]

/-! ## C1: exactly eight accesses are forced to ROM -/

theorem run_eight {D : Type} (E : Ext D) (s : Machine D) (h0 : s.u27 = 0)
    (pre : List Access) (hnd : ∀ x ∈ pre, x.nonDebug = true) (h8 : 8 ≤ pre.length) :
    (runAccesses E s pre).u27 = 0xFF := by
  have hsplit : pre = pre.take 8 ++ pre.drop 8 := (List.take_append_drop 8 pre).symm
  have hlen : (pre.take 8).length = 8 := by
    rw [List.length_take]; omega
  have h1 := run_overlaid E (pre.take 8) s 0 (by omega) (by rw [h0]; rfl)
    (fun x hx => hnd x (List.mem_of_mem_take hx))
  rw [hsplit, run_append]
  apply run_collapsed
  rw [h1, hlen]
  rfl

/-- C1. From `u27 = 0`, after any `n` real (non-debug) byte accesses at arbitrary
addresses: if `n < 8` the next access is forced to ROM (a read at `a` returns
`rom[a & 0x1FFFF]`, and after a read or a write the machine differs from the initial one
only in `u27`, so nothing was stored and no device was reached); if `n ≥ 8` the overlay
register is `0xFF` and the next access goes to the region of its address (RAM is read and
written, the banked window and off-board space read `0xFF`, ROM space reads the image,
the configuration port reads and writes `mfpic_cfg`). -/
theorem first_eight_accesses_forced_to_rom {D : Type} (E : Ext D) (s : Machine D)
    (h0 : s.u27 = 0) (pre : List Access) (hnd : ∀ x ∈ pre, x.nonDebug = true)
    (a v : Nat) :
    (pre.length < 8 →
      (do_cpu_read_byte E (runAccesses E s pre) a 0).1 = s.rom (a &&& 0x1FFFF) ∧
      (do_cpu_read_byte E (runAccesses E s pre) a 0).2 =
        { s with u27 := 2 ^ (pre.length + 1) - 1 } ∧
      cpu_write_byte E (runAccesses E s pre) a v =
        { s with u27 := 2 ^ (pre.length + 1) - 1 }) ∧
    (8 ≤ pre.length →
      (runAccesses E s pre).u27 = 0xFF ∧
      (a &&& 0x3FFFFF < 0x200000 →
        (do_cpu_read_byte E (runAccesses E s pre) a 0).1 =
          (runAccesses E s pre).ram (a &&& 0x3FFFFF) ∧
        (cpu_write_byte E (runAccesses E s pre) a v).ram (a &&& 0x3FFFFF) = v % 256) ∧
      (0x200000 ≤ a &&& 0x3FFFFF → a &&& 0x3FFFFF < 0x380000 →
        (do_cpu_read_byte E (runAccesses E s pre) a 0).1 = 0xFF) ∧
      (0x380000 ≤ a &&& 0x3FFFFF → a &&& 0x3FFFFF < 0x3F0000 →
        (do_cpu_read_byte E (runAccesses E s pre) a 0).1 = s.rom (a &&& 0x1FFFF)) ∧
      (0x3F0000 ≤ a &&& 0x3FFFFF → a &&& 0xFF = 0x42 →
        (do_cpu_read_byte E (runAccesses E s pre) a 0).1 = (runAccesses E s pre).mfpic_cfg ∧
        (cpu_write_byte E (runAccesses E s pre) a v).mfpic_cfg = v % 256)) := by
  constructor
  · intro hlt
    have hrun := run_overlaid E pre s 0 (by omega) (by rw [h0]; rfl) hnd
    rw [Nat.zero_add] at hrun
    have hu : (runAccesses E s pre).u27 = 2 ^ pre.length - 1 := by rw [hrun]
    have hr := step_overlaid E _ (Access.read a 0) pre.length hlt hu rfl
    have hw := step_overlaid E _ (Access.write a v) pre.length hlt hu rfl
    obtain ⟨hbit, -⟩ := shift_u27_ovl pre.length hlt
    rw [← hu] at hbit
    refine ⟨?_, ?_, ?_⟩
    · rw [read_overlaid E _ a 0 hbit, and_3FFFFF_1FFFF, hrun]
    · simp only [Access.step] at hr
      rw [hr, hrun]
    · simp only [Access.step] at hw
      rw [hw, hrun]
  · intro h8
    have hu := run_eight E s h0 pre hnd h8
    have hbit : (runAccesses E s pre).u27 &&& 0x80 ≠ 0 := by rw [hu]; decide
    refine ⟨hu, ?_, ?_, ?_, ?_⟩
    · intro ha
      rw [read_collapsed_ram E _ a 0 hbit ha, write_collapsed_ram E _ a v hbit ha]
      simp [Machine.setRam]
    · intro h1 h2
      rw [read_collapsed_fixed E _ a 0 hbit h1 h2]
    · intro h1 h2
      rw [read_collapsed_rom E _ a 0 hbit h1 h2, and_3FFFFF_1FFFF, run_rom]
    · intro h1 hlo
      have n1 : ¬ (a &&& 0x3FFFFF < 0x200000) := by omega
      have n2 : ¬ (a &&& 0x3FFFFF < 0x380000) := by omega
      have n3 : ¬ (a &&& 0x3FFFFF < 0x3F0000) := by omega
      have e1 : a &&& 0x3FFFFF &&& 0xFFFF &&& 0xFF = 0x42 := by
        rw [and_3FFFFF, and_FFFF, and_FF]
        rw [and_FF] at hlo
        omega
      have e2 : a &&& 0x3FFFFF &&& 0xFF = 0x42 := by
        rw [and_3FFFFF, and_FF]
        rw [and_FF] at hlo
        omega
      constructor
      · unfold do_cpu_read_byte
        simp only [hbit, n1, n2, n3, e1, if_true, if_false, cfg_read, ne_eq,
          not_true_eq_false]
        simp
      · unfold cpu_write_byte
        simp only [hbit, n1, n3, e2, if_true, if_false, cfg_write]
        simp

/-- C1 at the power-on machine: the third read of address 0 returns the ROM byte
`0x11`, the ninth returns the RAM fill byte `0xA7`. -/
theorem first_eight_accesses_forced_to_rom_witness :
    boot.u27 = 0 ∧
    (do_cpu_read_byte logExt
      (runAccesses logExt boot (List.replicate 2 (Access.read 0 0))) 0 0).1 = 0x11 ∧
    (do_cpu_read_byte logExt
      (runAccesses logExt boot (List.replicate 8 (Access.read 0 0))) 0 0).1 = 0xA7 := by
  refine ⟨rfl, ?_, ?_⟩
  · have h := (first_eight_accesses_forced_to_rom logExt boot rfl
      (List.replicate 2 (Access.read 0 0)) (by decide) 0 0).1 (by decide)
    rw [h.1]
    rfl
  · have h := ((first_eight_accesses_forced_to_rom logExt boot rfl
      (List.replicate 8 (Access.read 0 0)) (by decide) 0 0).2 (by decide)).2.1 (by decide)
    rw [h.1]
    rfl

/-! ## C2: interrupt-controller writes through the bus -/

/-- C2 (code evaluated at the failing input). With the overlay collapsed and all
registers zero, `cpu_write_byte(0x3F0A40, 0x55)` addresses the mask register `R_IMSK`
(bits 8-12 of the address are 10), yet the byte lands in register 0: register 10 is still
0, and a following `cpu_read_byte(0x3F0A40)`, which does decode bits 8-12, returns 0. -/
theorem ns202_bus_write_lands_in_register_zero :
    (0x3F0A40 >>> 8) &&& 0x1F = R_IMSK ∧
    (cpu_write_byte logExt normal 0x3F0A40 0x55).ns202.reg R_IMSK = 0 ∧
    (cpu_write_byte logExt normal 0x3F0A40 0x55).ns202.reg R_HVCT = 0x55 ∧
    (cpu_read_byte logExt (cpu_write_byte logExt normal 0x3F0A40 0x55) 0x3F0A40).1 = 0 ∧
    ns202_read (ns202_write normal.ns202 0x0A40 0x55) 0x0A40 = 0x55 := by
  refine ⟨by decide, ?_, ?_, ?_, ?_⟩ <;> rfl

/-! ## C3: the overlay never comes back -/

theorem overlayValues_shift : ∀ u ∈ overlayValues, shift_u27 u ∈ overlayValues := by
  decide

theorem overlayValues_collapsed :
    ∀ u ∈ overlayValues, u &&& 0x80 ≠ 0 → u = 0xFF := by
  decide

theorem overlayValues_pow : ∀ u ∈ overlayValues, ∃ k, k ≤ 8 ∧ u = 2 ^ k - 1 := by
  intro u hu
  simp only [overlayValues, List.mem_cons, List.mem_singleton, List.mem_nil_iff,
    or_false] at hu
  rcases hu with h | h | h | h | h | h | h | h | h
  · exact ⟨0, by omega, by rw [h]; rfl⟩
  · exact ⟨1, by omega, by rw [h]; rfl⟩
  · exact ⟨2, by omega, by rw [h]; rfl⟩
  · exact ⟨3, by omega, by rw [h]; rfl⟩
  · exact ⟨4, by omega, by rw [h]; rfl⟩
  · exact ⟨5, by omega, by rw [h]; rfl⟩
  · exact ⟨6, by omega, by rw [h]; rfl⟩
  · exact ⟨7, by omega, by rw [h]; rfl⟩
  · exact ⟨8, by omega, by rw [h]; rfl⟩

theorem run_overlayValues {D : Type} (E : Ext D) (xs : List Access) :
    ∀ s : Machine D, s.u27 ∈ overlayValues → (runAccesses E s xs).u27 ∈ overlayValues := by
  induction xs with
  | nil => intro s h; exact h
  | cons x xs ih =>
    intro s h
    simp only [runAccesses, List.foldl_cons]
    apply ih
    rcases step_u27 E s x with e | e
    · rw [e]; exact h
    · rw [e]; exact overlayValues_shift _ h

/-- C3. From `u27 = 0`, after any sequence `xs` of byte reads (debug or not) and byte
writes the overlay register holds one of `0x00, 0x01, 0x03, ..., 0x7F, 0xFF`; each of
these values is reached by some sequence; if bit 7 is set after `xs` it is still set
after any further sequence `ys`; and `0xFF` is a fixed point of the shift-in-1 step. -/
theorem overlay_never_returns {D : Type} (E : Ext D) (s : Machine D) (h0 : s.u27 = 0)
    (xs ys : List Access) :
    (runAccesses E s xs).u27 ∈ overlayValues ∧
    (∀ u ∈ overlayValues, ∃ zs : List Access, (runAccesses E s zs).u27 = u) ∧
    ((runAccesses E s xs).u27 &&& 0x80 ≠ 0 →
      (runAccesses E (runAccesses E s xs) ys).u27 &&& 0x80 ≠ 0) ∧
    shift_u27 0xFF = 0xFF := by
  have hin : (runAccesses E s xs).u27 ∈ overlayValues :=
    run_overlayValues E xs s (by rw [h0]; decide)
  refine ⟨hin, ?_, ?_, shift_u27_FF⟩
  · intro u hu
    obtain ⟨k, hk, rfl⟩ := overlayValues_pow u hu
    refine ⟨List.replicate k (Access.write 0 0), ?_⟩
    have h := run_overlaid E (List.replicate k (Access.write 0 0)) s 0
      (by simp only [List.length_replicate]; omega) (by rw [h0]; rfl)
      (fun x hx => by rw [List.eq_of_mem_replicate hx]; rfl)
    rw [h]
    simp only [List.length_replicate, Nat.zero_add]
  · intro hbit
    have hFF := overlayValues_collapsed _ hin hbit
    rw [run_collapsed E ys _ hFF]
    decide

/-- C3 at the power-on machine: nine reads collapse the overlay, and a debug read, a
write and a read later bit 7 of `u27` is still set. -/
theorem overlay_never_returns_witness :
    boot.u27 = 0 ∧
    (runAccesses logExt boot (List.replicate 9 (Access.read 0 0))).u27 ∈ overlayValues ∧
    (runAccesses logExt (runAccesses logExt boot (List.replicate 9 (Access.read 0 0)))
      [Access.read 0x3F0040 1, Access.write 0x380000 7, Access.read 5 0]).u27 &&& 0x80
        ≠ 0 :=
  have h := overlay_never_returns logExt boot rfl (List.replicate 9 (Access.read 0 0))
    [Access.read 0x3F0040 1, Access.write 0x380000 7, Access.read 5 0]
  ⟨rfl, h.1, h.2.2.1 (by decide)⟩

/-! ## C4: debug probes while the overlay is active -/

/-- C4 fails as stated: at power-on (bit 7 of `u27` clear) address 0 lies in RAM, not in
ROM space, yet the debug probe `do_cpu_read_byte(0, 1)` returns the ROM byte `rom[0]`
(`0x11` here) and not the RAM byte `ram[0]` (`0xA7`). -/
theorem debug_probe_reads_rom_under_overlay :
    boot.u27 &&& 0x80 = 0 ∧ (0 &&& 0x3FFFFF) < 0x200000 ∧
    ¬ ((do_cpu_read_byte logExt boot 0 1).1 = boot.ram (0 &&& 0x3FFFFF) ∧
       (do_cpu_read_byte logExt boot 0 1).1 ≠ boot.rom (0 &&& 0x1FFFF)) := by
  refine ⟨by decide, by decide, ?_⟩
  intro h
  exact h.2 rfl

/-- C4 as amended. A debug probe is routed like a real access but never advances the
overlay register: while bit 7 of `u27` is clear it returns the ROM byte
`rom[a & 0x1FFFF]` at every address; once bit 7 is set it returns the value of the
region of its address (`ram[a]` below `0x200000`, `0xFF` from `0x200000` up to
`0x380000`). In both cases the machine is unchanged. -/
theorem debug_probe_routing {D : Type} (E : Ext D) (s : Machine D) (address debug : Nat)
    (hd : debug ≠ 0) :
    (s.u27 &&& 0x80 = 0 →
      do_cpu_read_byte E s address debug = (s.rom (address &&& 0x1FFFF), s)) ∧
    (s.u27 &&& 0x80 ≠ 0 →
      (address &&& 0x3FFFFF < 0x200000 →
        do_cpu_read_byte E s address debug = (s.ram (address &&& 0x3FFFFF), s)) ∧
      (0x200000 ≤ address &&& 0x3FFFFF → address &&& 0x3FFFFF < 0x380000 →
        do_cpu_read_byte E s address debug = (0xFF, s))) := by
  refine ⟨fun h => ?_, fun h => ⟨fun ha => ?_, fun h1 h2 => ?_⟩⟩
  · rw [read_overlaid E s address debug h, and_3FFFFF_1FFFF, if_neg hd]
  · rw [read_collapsed_ram E s address debug h ha, if_neg hd]
  · rw [read_collapsed_fixed E s address debug h h1 h2, if_neg hd]

/-- C4 as amended, at concrete machines: a probe of RAM address 0 sees `0x11` (ROM)
at power-on and `0xA7` (RAM) once the overlay has collapsed. -/
theorem debug_probe_routing_witness :
    (1 : Nat) ≠ 0 ∧
    do_cpu_read_byte logExt boot 0 1 = (0x11, boot) ∧
    do_cpu_read_byte logExt normal 0 1 = (0xA7, normal) :=
  ⟨by decide,
    (debug_probe_routing logExt boot 0 1 (by decide)).1 (by decide),
    ((debug_probe_routing logExt normal 0 1 (by decide)).2 (by decide)).1 (by decide)⟩

/-! ## C5: debug probes have no side effect -/

/-- C5. A debug probe (`debug ≠ 0`) returns the machine it was given, byte for byte:
`u27`, RAM, ROM, `mfpic_cfg`, the NS32202 registers and the device state are all
unchanged, for every device model, so no device function is called. The same holds for
the word and long reads built on it, including the two disassembler entry points. -/
theorem debug_probe_no_side_effect {D : Type} (E : Ext D) (s : Machine D)
    (address debug : Nat) (hd : debug ≠ 0) :
    (do_cpu_read_byte E s address debug).2 = s ∧
    (do_cpu_read_word E s address debug).2 = s ∧
    (cpu_read_word_dasm E s address).2 = s ∧
    (cpu_read_long_dasm E s address).2 = s := by
  have one : (1 : Nat) ≠ 0 := by decide
  have hw : ∀ (t : Machine D) (a d : Nat), d ≠ 0 → (do_cpu_read_word E t a d).2 = t := by
    intro t a d h
    simp only [do_cpu_read_word, read_debug E _ _ d h]
  refine ⟨read_debug E s address debug hd, hw s address debug hd, hw s address 1 one, ?_⟩
  simp only [cpu_read_long_dasm, cpu_read_word_dasm, hw _ _ 1 one]

/-- C5 at the clock-chip port with the overlay collapsed: the probe and the
disassembler reads leave the machine as it was and the call record empty. -/
theorem debug_probe_no_side_effect_witness :
    (1 : Nat) ≠ 0 ∧
    (do_cpu_read_byte logExt normal 0x3F0043 1).2 = normal ∧
    (do_cpu_read_word logExt normal 0x3F0043 1).2 = normal ∧
    (cpu_read_word_dasm logExt normal 0x3F0043).2 = normal ∧
    (cpu_read_long_dasm logExt normal 0x3F0043).2 = normal ∧
    (cpu_read_long_dasm logExt normal 0x3F0043).2.dev = [] ∧
    (cpu_read_byte logExt normal 0x3F0043).2.dev = [DevCall.rtc_read] :=
  have h := debug_probe_no_side_effect logExt normal 0x3F0043 1 (by decide)
  ⟨by decide, h.1, h.2.1, h.2.2.1, h.2.2.2, by rw [h.2.2.2]; rfl, rfl⟩

/-! ## C6: the reset pulse and the overlay register -/

/-- C6 fails as stated: from the collapsed machine (`u27 = 0xFF`) `cpu_pulse_reset`
leaves `u27 = 0xFF`, not 0, and the next real read of address 0 returns the RAM byte
`0xA7`, not the ROM byte `0x11`. -/
theorem reset_keeps_overlay_collapsed :
    (cpu_pulse_reset logExt normal).u27 = 0xFF ∧
    (cpu_pulse_reset logExt normal).u27 ≠ 0 ∧
    (do_cpu_read_byte logExt (cpu_pulse_reset logExt normal) 0 0).1 = 0xA7 ∧
    (cpu_pulse_reset logExt normal).rom (0 &&& 0x1FFFF) = 0x11 := by
  refine ⟨rfl, by decide, rfl, rfl⟩

/-- C6 as amended. `cpu_pulse_reset` (which runs `device_init`) does not touch the
overlay register: `u27` after the reset equals `u27` before it, as do RAM, ROM,
`mfpic_cfg` and the NS32202 registers; the reset clears `irq_pending` and runs
`ppide_reset`, `uart16x50_reset` and `uart16x50_set_input(uart, 1)` in that order. The
overlay register is 0 in the power-on machine only. -/
theorem reset_leaves_overlay_register {D : Type} (E : Ext D) (s : Machine D)
    (romImage : Nat → Nat) (d : D) :
    (cpu_pulse_reset E s).u27 = s.u27 ∧
    (cpu_pulse_reset E s).ram = s.ram ∧
    (cpu_pulse_reset E s).rom = s.rom ∧
    (cpu_pulse_reset E s).mfpic_cfg = s.mfpic_cfg ∧
    (cpu_pulse_reset E s).ns202 = s.ns202 ∧
    (cpu_pulse_reset E s).irq_pending = 0 ∧
    (cpu_pulse_reset E s).dev =
      E.uart16x50_set_input (E.uart16x50_reset (E.ppide_reset s.dev)) 1 ∧
    (power_on romImage d).u27 = 0 :=
  ⟨rfl, rfl, rfl, rfl, rfl, rfl, rfl, rfl⟩

/-! ## C7: only the masked address matters -/

theorem read_congr {D : Type} (E : Ext D) (s : Machine D) (a b d : Nat)
    (h : a &&& 0x3FFFFF = b &&& 0x3FFFFF) :
    do_cpu_read_byte E s a d = do_cpu_read_byte E s b d := by
  unfold do_cpu_read_byte
  simp only [h]

theorem write_congr {D : Type} (E : Ext D) (s : Machine D) (a b v : Nat)
    (h : a &&& 0x3FFFFF = b &&& 0x3FFFFF) :
    cpu_write_byte E s a v = cpu_write_byte E s b v := by
  unfold cpu_write_byte
  simp only [h]

/-- C7. For every machine, address `a`, debug flag and value, a byte read at
`a + 2^24` (taken modulo `2^32`) returns the same value and the same machine as the read
at `a`, and a byte write at `a + 2^24` leaves the same machine as the write at `a`. -/
theorem access_mod_2_24 {D : Type} (E : Ext D) (s : Machine D) (a debug v : Nat) :
    do_cpu_read_byte E s ((a + 2 ^ 24) % 2 ^ 32) debug = do_cpu_read_byte E s a debug ∧
    cpu_write_byte E s ((a + 2 ^ 24) % 2 ^ 32) v = cpu_write_byte E s a v := by
  have h : (a + 2 ^ 24) % 2 ^ 32 &&& 0x3FFFFF = a &&& 0x3FFFFF := by
    rw [and_3FFFFF, and_3FFFFF]
    omega
  exact ⟨read_congr E s _ _ debug h, write_congr E s _ _ v h⟩

/-! ## C8: routing of a read once the overlay has collapsed -/

/-- C8. With bit 7 of `u27` set, a byte read at masked address `m = address & 0x3FFFFF`
returns `ram[m]` when `m < 0x200000`, `0xFF` when `0x200000 ≤ m < 0x380000`,
`rom[m & 0x1FFFF]` when `0x380000 ≤ m < 0x3F0000`, and `0xFF` when `m ≥ 0x3F0000` and
the access is a debug probe or the low address byte is none of `0x40`, `0x42..0x4F`. -/
theorem collapsed_read_routing {D : Type} (E : Ext D) (s : Machine D)
    (address debug : Nat) (h : s.u27 &&& 0x80 ≠ 0) :
    (address &&& 0x3FFFFF < 0x200000 →
      (do_cpu_read_byte E s address debug).1 = s.ram (address &&& 0x3FFFFF)) ∧
    (0x200000 ≤ address &&& 0x3FFFFF → address &&& 0x3FFFFF < 0x380000 →
      (do_cpu_read_byte E s address debug).1 = 0xFF) ∧
    (0x380000 ≤ address &&& 0x3FFFFF → address &&& 0x3FFFFF < 0x3F0000 →
      (do_cpu_read_byte E s address debug).1 = s.rom (address &&& 0x3FFFFF &&& 0x1FFFF)) ∧
    (0x3F0000 ≤ address &&& 0x3FFFFF →
      (debug ≠ 0 ∨ ¬ (address &&& 0xFF = 0x40 ∨
        (0x42 ≤ address &&& 0xFF ∧ address &&& 0xFF ≤ 0x4F))) →
      (do_cpu_read_byte E s address debug).1 = 0xFF) := by
  refine ⟨fun ha => ?_, fun h1 h2 => ?_, fun h1 h2 => ?_, fun h1 h2 => ?_⟩
  · rw [read_collapsed_ram E s address debug h ha]
  · rw [read_collapsed_fixed E s address debug h h1 h2]
  · rw [read_collapsed_rom E s address debug h h1 h2]
  · by_cases hd : debug = 0
    · have hlo : ¬ (address &&& 0xFF = 0x40 ∨
          (0x42 ≤ address &&& 0xFF ∧ address &&& 0xFF ≤ 0x4F)) := by
        rcases h2 with h2 | h2
        · exact absurd hd h2
        · exact h2
      have e : address &&& 0x3FFFFF &&& 0xFFFF &&& 0xFF = address &&& 0xFF := by
        rw [and_3FFFFF, and_FFFF, and_FF, and_FF]
        omega
      have n1 : ¬ (address &&& 0x3FFFFF < 0x200000) := by omega
      have n2 : ¬ (address &&& 0x3FFFFF < 0x380000) := by omega
      have n3 : ¬ (address &&& 0x3FFFFF < 0x3F0000) := by omega
      have c1 : ¬ (address &&& 0xFF = 0x40) := by omega
      have c2 : ¬ (address &&& 0xFF = 0x42) := by omega
      have c3 : ¬ (address &&& 0xFF = 0x43) := by omega
      have c4 : ¬ (address &&& 0xFF = 0x44 ∨ address &&& 0xFF = 0x45 ∨
          address &&& 0xFF = 0x46 ∨ address &&& 0xFF = 0x47) := by omega
      have c5 : ¬ (address &&& 0xFF = 0x48 ∨ address &&& 0xFF = 0x49 ∨
          address &&& 0xFF = 0x4A ∨ address &&& 0xFF = 0x4B ∨ address &&& 0xFF = 0x4C ∨
          address &&& 0xFF = 0x4D ∨ address &&& 0xFF = 0x4E ∨
          address &&& 0xFF = 0x4F) := by omega
      unfold do_cpu_read_byte
      simp only [h, n1, n2, n3, hd, e, c1, c2, c3, c4, c5, if_true, if_false, ne_eq,
        not_true_eq_false]
    · rw [read_collapsed_io_debug E s address debug h h1 hd]

/-- C8 on the collapsed recording machine: RAM, banked window, ROM space, an
unassigned port and a probed device port. -/
theorem collapsed_read_routing_witness :
    normal.u27 &&& 0x80 ≠ 0 ∧
    (do_cpu_read_byte logExt normal 0x001234 0).1 = 0xA7 ∧
    (do_cpu_read_byte logExt normal 0x2ABCDE 0).1 = 0xFF ∧
    (do_cpu_read_byte logExt normal 0x380005 0).1 = 0x16 ∧
    (do_cpu_read_byte logExt normal 0x3F0041 0).1 = 0xFF ∧
    (do_cpu_read_byte logExt normal 0x3F0048 1).1 = 0xFF := by
  have hb : normal.u27 &&& 0x80 ≠ 0 := by decide
  refine ⟨hb, ?_, ?_, ?_, ?_, ?_⟩
  · rw [(collapsed_read_routing logExt normal 0x001234 0 hb).1 (by decide)]; rfl
  · exact (collapsed_read_routing logExt normal 0x2ABCDE 0 hb).2.1 (by decide) (by decide)
  · rw [(collapsed_read_routing logExt normal 0x380005 0 hb).2.2.1 (by decide)
      (by decide)]; rfl
  · exact (collapsed_read_routing logExt normal 0x3F0041 0 hb).2.2.2 (by decide)
      (Or.inr (by decide))
  · exact (collapsed_read_routing logExt normal 0x3F0048 1 hb).2.2.2 (by decide)
      (Or.inl (by decide))

/-! ## C9: writes that store nothing -/

theorem read_rom_space {D : Type} (E : Ext D) (s : Machine D) (b d : Nat)
    (h1 : 0x380000 ≤ b &&& 0x3FFFFF) (h2 : b &&& 0x3FFFFF < 0x3F0000) :
    (do_cpu_read_byte E s b d).1 = s.rom (b &&& 0x3FFFFF &&& 0x1FFFF) := by
  by_cases h : s.u27 &&& 0x80 = 0
  · rw [read_overlaid E s b d h]
  · rw [read_collapsed_rom E s b d h h1 h2]

/-- C9. For every machine and value, a byte write whose masked address `m` satisfies
`0x200000 ≤ m < 0x3F0000` (banked window, off-board, ROM space), or `m ≥ 0x3F0000` with
a low byte outside `0x40`, `0x42..0x4F`, changes nothing but the overlay register: RAM,
ROM, `mfpic_cfg`, the NS32202 registers and the device state are as before (for every
device model, so no device write is reached), and every later read from ROM space
returns the byte it returned before the write. -/
theorem write_outside_ram_and_devices {D : Type} (E : Ext D) (s : Machine D)
    (address v : Nat)
    (hm : (0x200000 ≤ address &&& 0x3FFFFF ∧ address &&& 0x3FFFFF < 0x3F0000) ∨
      (0x3F0000 ≤ address &&& 0x3FFFFF ∧
        ¬ (address &&& 0xFF = 0x40 ∨
          (0x42 ≤ address &&& 0xFF ∧ address &&& 0xFF ≤ 0x4F)))) :
    cpu_write_byte E s address v = { s with u27 := shift_u27 s.u27 } ∧
    (cpu_write_byte E s address v).ram = s.ram ∧
    (cpu_write_byte E s address v).rom = s.rom ∧
    (cpu_write_byte E s address v).mfpic_cfg = s.mfpic_cfg ∧
    (cpu_write_byte E s address v).ns202 = s.ns202 ∧
    (cpu_write_byte E s address v).dev = s.dev ∧
    (∀ b d : Nat, 0x380000 ≤ b &&& 0x3FFFFF → b &&& 0x3FFFFF < 0x3F0000 →
      (do_cpu_read_byte E (cpu_write_byte E s address v) b d).1 =
        (do_cpu_read_byte E s b d).1) := by
  have key : cpu_write_byte E s address v = { s with u27 := shift_u27 s.u27 } := by
    by_cases h : s.u27 &&& 0x80 = 0
    · exact write_overlaid E s address v h
    · rcases hm with ⟨h1, h2⟩ | ⟨h1, hlo⟩
      · exact write_collapsed_invalid E s address v h h1 h2
      · have e : address &&& 0x3FFFFF &&& 0xFF = address &&& 0xFF := by
          rw [and_3FFFFF, and_FF, and_FF]
          omega
        have n1 : ¬ (address &&& 0x3FFFFF < 0x200000) := by omega
        have n3 : ¬ (address &&& 0x3FFFFF < 0x3F0000) := by omega
        have c1 : ¬ (address &&& 0xFF = 0x40) := by omega
        have c2 : ¬ (address &&& 0xFF = 0x42) := by omega
        have c3 : ¬ (address &&& 0xFF = 0x43) := by omega
        have c4 : ¬ (address &&& 0xFF = 0x44 ∨ address &&& 0xFF = 0x45 ∨
            address &&& 0xFF = 0x46 ∨ address &&& 0xFF = 0x47) := by omega
        have c5 : ¬ (address &&& 0xFF = 0x48 ∨ address &&& 0xFF = 0x49 ∨
            address &&& 0xFF = 0x4A ∨ address &&& 0xFF = 0x4B ∨
            address &&& 0xFF = 0x4C ∨ address &&& 0xFF = 0x4D ∨
            address &&& 0xFF = 0x4E ∨ address &&& 0xFF = 0x4F) := by omega
        unfold cpu_write_byte
        simp only [h, n1, n3, e, c1, c2, c3, c4, c5, if_false]
  refine ⟨key, ?_, ?_, ?_, ?_, ?_, ?_⟩
  · rw [key]
  · rw [key]
  · rw [key]
  · rw [key]
  · rw [key]
  · intro b d h1 h2
    rw [read_rom_space E _ b d h1 h2, read_rom_space E s b d h1 h2, key]

/-- C9 on the collapsed recording machine: a write into ROM space and a write to the
unassigned port `0x41` leave the machine as it was, and the ROM byte reads back. -/
theorem write_outside_ram_and_devices_witness :
    cpu_write_byte logExt normal 0x380005 0x99 = normal ∧
    (cpu_write_byte logExt normal 0x3F0041 0x99).dev = [] ∧
    (do_cpu_read_byte logExt (cpu_write_byte logExt normal 0x380005 0x99) 0x380005 0).1
      = 0x16 := by
  have h1 := write_outside_ram_and_devices logExt normal 0x380005 0x99
    (Or.inl ⟨by decide, by decide⟩)
  have h2 := write_outside_ram_and_devices logExt normal 0x3F0041 0x99
    (Or.inr ⟨by decide, by decide⟩)
  refine ⟨h1.1, ?_, ?_⟩
  · rw [h2.2.2.2.2.2.1]; rfl
  · rw [h1.2.2.2.2.2.2 0x380005 0 (by decide) (by decide)]; rfl

/-! ## C10: word and long accesses through RAM -/

theorem word_compose (v : Nat) :
    ((((v >>> 8) % 256) <<< 8) % 2 ^ 32) ||| ((v &&& 0xFF) % 256) = v &&& 0xFFFF := by
  rw [and_FF, and_FFFF, Nat.shiftLeft_eq, Nat.shiftRight_eq_div_pow]
  have h3 : (v / 2 ^ 8 % 256 * 2 ^ 8) % 2 ^ 32 = 2 ^ 8 * (v / 2 ^ 8 % 256) := by omega
  rw [h3, ← Nat.mul_add_lt_is_or (by omega)]
  omega

theorem long_compose (v : Nat) :
    ((((v >>> 16) &&& 0xFFFF) <<< 16) % 2 ^ 32) ||| ((v &&& 0xFFFF) &&& 0xFFFF) =
      v % 2 ^ 32 := by
  rw [and_FFFF, and_FFFF, and_FFFF, Nat.shiftLeft_eq, Nat.shiftRight_eq_div_pow]
  have h3 : (v / 2 ^ 16 % 65536 * 2 ^ 16) % 2 ^ 32 = 2 ^ 16 * (v / 2 ^ 16 % 65536) := by
    omega
  rw [h3, ← Nat.mul_add_lt_is_or (by omega)]
  omega

theorem write_FF_ram {D : Type} (E : Ext D) (s : Machine D) (a v : Nat)
    (h : s.u27 = 0xFF) (ha : a &&& 0x3FFFFF < 0x200000) :
    cpu_write_byte E s a v = s.setRam (a &&& 0x3FFFFF) v := by
  rw [write_collapsed_ram E s a v (by rw [h]; decide) ha, h, shift_u27_FF]
  cases s
  simp only at h
  subst h
  rfl

theorem read_FF_ram {D : Type} (E : Ext D) (s : Machine D) (a : Nat)
    (h : s.u27 = 0xFF) (ha : a &&& 0x3FFFFF < 0x200000) :
    do_cpu_read_byte E s a 0 = (s.ram (a &&& 0x3FFFFF), s) := by
  rw [read_collapsed_ram E s a 0 (by rw [h]; decide) ha, h, shift_u27_FF, if_pos rfl]
  cases s
  simp only at h
  subst h
  rfl

/-- A word write into RAM with `u27 = 0xFF`, as two stores. -/
theorem write_word_FF_ram {D : Type} (E : Ext D) (s : Machine D) (a v : Nat)
    (h : s.u27 = 0xFF) (h0 : a &&& 0x3FFFFF < 0x200000)
    (h1 : (a + 1) &&& 0x3FFFFF < 0x200000) :
    cpu_write_word E s a v =
      (s.setRam (a &&& 0x3FFFFF) (v >>> 8)).setRam ((a + 1) &&& 0x3FFFFF) (v &&& 0xFF) := by
  have e0 : a &&& 0xFFFFFF &&& 0x3FFFFF = a &&& 0x3FFFFF := by
    rw [and_FFFFFF, and_3FFFFF, and_3FFFFF]; omega
  have e1 : ((a &&& 0xFFFFFF) + 1) &&& 0x3FFFFF = (a + 1) &&& 0x3FFFFF := by
    rw [and_FFFFFF, and_3FFFFF, and_3FFFFF]; omega
  unfold cpu_write_word
  simp only
  rw [write_FF_ram E s _ _ h (by rw [e0]; exact h0), e0,
    write_FF_ram E _ _ _ (by exact h) (by rw [e1]; exact h1), e1]

/-- A word read from RAM with `u27 = 0xFF`. -/
theorem read_word_FF_ram {D : Type} (E : Ext D) (s : Machine D) (a : Nat)
    (h : s.u27 = 0xFF) (h0 : a &&& 0x3FFFFF < 0x200000)
    (h1 : (a + 1) &&& 0x3FFFFF < 0x200000) :
    cpu_read_word E s a =
      (((s.ram (a &&& 0x3FFFFF) <<< 8) % 2 ^ 32) ||| s.ram ((a + 1) &&& 0x3FFFFF), s) := by
  have e1 : (a + 1) % 2 ^ 32 &&& 0x3FFFFF = (a + 1) &&& 0x3FFFFF := by
    rw [and_3FFFFF, and_3FFFFF]; omega
  unfold cpu_read_word do_cpu_read_word
  simp only
  rw [read_FF_ram E s a h h0]
  simp only
  rw [read_FF_ram E s _ h (by rw [e1]; exact h1), e1]

/-- C10. In a reachable machine whose overlay has collapsed (`u27` is one of the
overlay values and has bit 7 set, hence is `0xFF`): if the two byte addresses of a word
at `a` fall in RAM after masking, `cpu_write_word(a, v)` stores `(v >> 8) & 0xFF` at `a`
and `v & 0xFF` at `a + 1`, and a following `cpu_read_word(a)` returns `v & 0xFFFF`; if
the four byte addresses of a long at `a` fall in RAM, `cpu_write_long(a, v)` stores
the bytes `v >> 24`, `v >> 16`, `v >> 8`, `v` (each `& 0xFF`) at `a .. a + 3`, and a
following `cpu_read_long(a)` returns `v` as a 32-bit value (`v % 2 ^ 32`). -/
theorem word_long_roundtrip {D : Type} (E : Ext D) (s : Machine D) (a v : Nat)
    (hov : s.u27 ∈ overlayValues) (hbit : s.u27 &&& 0x80 ≠ 0) :
    ((a &&& 0x3FFFFF < 0x200000 ∧ (a + 1) &&& 0x3FFFFF < 0x200000) →
      (cpu_write_word E s a v).ram (a &&& 0x3FFFFF) = (v >>> 8) &&& 0xFF ∧
      (cpu_write_word E s a v).ram ((a + 1) &&& 0x3FFFFF) = v &&& 0xFF ∧
      (cpu_read_word E (cpu_write_word E s a v) a).1 = v &&& 0xFFFF) ∧
    ((a &&& 0x3FFFFF < 0x200000 ∧ (a + 1) &&& 0x3FFFFF < 0x200000 ∧
        (a + 2) &&& 0x3FFFFF < 0x200000 ∧ (a + 3) &&& 0x3FFFFF < 0x200000) →
      (cpu_write_long E s a v).ram (a &&& 0x3FFFFF) = (v >>> 24) &&& 0xFF ∧
      (cpu_write_long E s a v).ram ((a + 1) &&& 0x3FFFFF) = (v >>> 16) &&& 0xFF ∧
      (cpu_write_long E s a v).ram ((a + 2) &&& 0x3FFFFF) = (v >>> 8) &&& 0xFF ∧
      (cpu_write_long E s a v).ram ((a + 3) &&& 0x3FFFFF) = v &&& 0xFF ∧
      (cpu_read_long E (cpu_write_long E s a v) a).1 = v % 2 ^ 32) := by
  have hFF : s.u27 = 0xFF := overlayValues_collapsed _ hov hbit
  constructor
  · rintro ⟨h0, h1⟩
    have hne : (a + 1) &&& 0x3FFFFF ≠ a &&& 0x3FFFFF := by
      rw [and_3FFFFF, and_3FFFFF] at *; omega
    have hw := write_word_FF_ram E s a v hFF h0 h1
    have r0 : (cpu_write_word E s a v).ram (a &&& 0x3FFFFF) = (v >>> 8) % 256 := by
      rw [hw]; simp [Machine.setRam, hne.symm]
    have r1 : (cpu_write_word E s a v).ram ((a + 1) &&& 0x3FFFFF) = (v &&& 0xFF) % 256 := by
      rw [hw]; simp [Machine.setRam]
    have hu : (cpu_write_word E s a v).u27 = 0xFF := by rw [hw]; exact hFF
    refine ⟨?_, ?_, ?_⟩
    · rw [r0, and_FF]
    · rw [r1, and_FF, Nat.mod_mod]
    · rw [read_word_FF_ram E _ a hu h0 h1]
      simp only
      rw [r0, r1, word_compose]
  · rintro ⟨h0, h1, h2, h3⟩
    have m1 : (a + 1) &&& 0x3FFFFF = (a &&& 0x3FFFFF) + 1 := by
      rw [and_3FFFFF, and_3FFFFF] at *; omega
    have m2 : (a + 2) &&& 0x3FFFFF = (a &&& 0x3FFFFF) + 2 := by
      rw [and_3FFFFF, and_3FFFFF] at *; omega
    have m3 : (a + 3) &&& 0x3FFFFF = (a &&& 0x3FFFFF) + 3 := by
      rw [and_3FFFFF, and_3FFFFF] at *; omega
    have e0 : a &&& 0xFFFFFF &&& 0x3FFFFF = a &&& 0x3FFFFF := by
      rw [and_FFFFFF, and_3FFFFF, and_3FFFFF]; omega
    have e1 : ((a &&& 0xFFFFFF) + 1) &&& 0x3FFFFF = (a &&& 0x3FFFFF) + 1 := by
      rw [← m1, and_FFFFFF, and_3FFFFF, and_3FFFFF]; omega
    have e2 : ((a &&& 0xFFFFFF) + 2) &&& 0x3FFFFF = (a &&& 0x3FFFFF) + 2 := by
      rw [← m2, and_FFFFFF, and_3FFFFF, and_3FFFFF]; omega
    have e3 : ((a &&& 0xFFFFFF) + 2 + 1) &&& 0x3FFFFF = (a &&& 0x3FFFFF) + 3 := by
      rw [← m3, and_FFFFFF, and_3FFFFF, and_3FFFFF]; omega
    have hw : cpu_write_long E s a v =
        (((s.setRam (a &&& 0x3FFFFF) (v >>> 16 >>> 8)).setRam ((a &&& 0x3FFFFF) + 1)
          (v >>> 16 &&& 0xFF)).setRam ((a &&& 0x3FFFFF) + 2)
          ((v &&& 0xFFFF) >>> 8)).setRam ((a &&& 0x3FFFFF) + 3)
          ((v &&& 0xFFFF) &&& 0xFF) := by
      unfold cpu_write_long
      simp only
      rw [write_word_FF_ram E s _ _ hFF (by rw [e0]; exact h0) (by rw [e1, ← m1]; exact h1),
        e0, e1,
        write_word_FF_ram E _ _ _ (by exact hFF) (by rw [e2, ← m2]; exact h2)
          (by rw [e3, ← m3]; exact h3), e2, e3]
    have hu : (cpu_write_long E s a v).u27 = 0xFF := by rw [hw]; exact hFF
    have r0 : (cpu_write_long E s a v).ram (a &&& 0x3FFFFF) = (v >>> 16 >>> 8) % 256 := by
      rw [hw]; simp [Machine.setRam]
    have r1 : (cpu_write_long E s a v).ram ((a &&& 0x3FFFFF) + 1) =
        (v >>> 16 &&& 0xFF) % 256 := by
      rw [hw]; simp [Machine.setRam]
    have r2 : (cpu_write_long E s a v).ram ((a &&& 0x3FFFFF) + 2) =
        ((v &&& 0xFFFF) >>> 8) % 256 := by
      rw [hw]; simp [Machine.setRam]
    have r3 : (cpu_write_long E s a v).ram ((a &&& 0x3FFFFF) + 3) =
        ((v &&& 0xFFFF) &&& 0xFF) % 256 := by
      rw [hw]; simp [Machine.setRam]
    have x2 : (a + 2) % 2 ^ 32 &&& 0x3FFFFF = (a &&& 0x3FFFFF) + 2 := by
      rw [← m2, and_3FFFFF, and_3FFFFF]; omega
    have x3 : ((a + 2) % 2 ^ 32 + 1) &&& 0x3FFFFF = (a &&& 0x3FFFFF) + 3 := by
      rw [← m3, and_3FFFFF, and_3FFFFF]; omega
    refine ⟨?_, ?_, ?_, ?_, ?_⟩
    · rw [r0, and_FF, Nat.shiftRight_eq_div_pow, Nat.shiftRight_eq_div_pow,
        Nat.shiftRight_eq_div_pow]
      omega
    · rw [m1, r1, and_FF, Nat.mod_mod]
    · rw [m2, r2, and_FFFF, and_FF, Nat.shiftRight_eq_div_pow, Nat.shiftRight_eq_div_pow]
      omega
    · rw [m3, r3, and_FFFF, and_FF, and_FF]
      omega
    · unfold cpu_read_long
      simp only
      rw [read_word_FF_ram E _ a hu h0 h1]
      simp only
      rw [read_word_FF_ram E _ _ hu (by rw [x2, ← m2]; exact h2)
        (by rw [x3, ← m3]; exact h3)]
      simp only
      rw [x2, x3, m1, r0, r1, r2, r3, word_compose, word_compose, long_compose]

/-- C10 on the collapsed recording machine: the word `0xBEEF` and the long
`0xDEADBEEF` written at `0x1000` read back unchanged. -/
theorem word_long_roundtrip_witness :
    normal.u27 ∈ overlayValues ∧ normal.u27 &&& 0x80 ≠ 0 ∧
    (cpu_read_word logExt (cpu_write_word logExt normal 0x1000 0xBEEF) 0x1000).1
      = 0xBEEF ∧
    (cpu_write_long logExt normal 0x1000 0xDEADBEEF).ram 0x1001 = 0xAD ∧
    (cpu_read_long logExt (cpu_write_long logExt normal 0x1000 0xDEADBEEF) 0x1000).1
      = 0xDEADBEEF :=
  have h := word_long_roundtrip logExt normal 0x1000 0xDEADBEEF (by decide) (by decide)
  have hw := word_long_roundtrip logExt normal 0x1000 0xBEEF (by decide) (by decide)
  have hl := h.2 ⟨by decide, by decide, by decide, by decide⟩
  ⟨by decide, by decide, (hw.1 ⟨by decide, by decide⟩).2.2, hl.2.1, hl.2.2.2.2⟩

/-! ## C11: raising an interrupt source -/

theorem irq_bank (irq : Nat) (h : irq < 16) :
    (if irq &&& 8 ≠ 0 then 1 else 0) = irq / 8 := by
  interval_cases irq <;> decide

theorem irq_bit (irq : Nat) : (1 <<< (irq &&& 7)) % 2 ^ 32 = 1 <<< (irq % 8) := by
  have h7 : irq &&& 7 = irq % 8 := Nat.and_pow_two_sub_one_eq_mod irq 3
  rw [h7]
  have hlt : irq % 8 < 8 := Nat.mod_lt _ (by decide)
  interval_cases (irq % 8) <;> decide

theorem irq_bit_lt (irq : Nat) : 1 <<< (irq % 8) < 2 ^ 8 := by
  have hlt : irq % 8 < 8 := Nat.mod_lt _ (by decide)
  interval_cases (irq % 8) <;> decide

theorem ns202_raise_unfrozen (n : ns32202) (irq : Nat) (hirq : irq < 16)
    (h : n.reg R_MCTL &&& 0x08 = 0) :
    ns202_raise n irq =
      n.setReg (R_IPND + irq / 8) (n.reg (R_IPND + irq / 8) ||| 1 <<< (irq % 8)) := by
  unfold ns202_raise
  simp only [irq_bank irq hirq, irq_bit, h, ne_eq, not_true_eq_false, if_false]

/-- C11. For a source index `irq` in `0..15` and a register file whose pending byte
`6 + irq div 8` is a byte (as every `uint8_t` register is): with the freeze bit `0x08` of
register 16 set, `ns202_raise` returns the register file unchanged; with it clear, that
pending byte becomes its old value OR `1 << (irq mod 8)`, and every other register
(the other pending byte included), `pri` and the counters are unchanged. -/
theorem ns202_raise_pending (n : ns32202) (irq : Nat) (hirq : irq < 16)
    (hbyte : n.reg (R_IPND + irq / 8) < 256) :
    (n.reg R_MCTL &&& 0x08 ≠ 0 → ns202_raise n irq = n) ∧
    (n.reg R_MCTL &&& 0x08 = 0 →
      (ns202_raise n irq).reg (R_IPND + irq / 8) =
        n.reg (R_IPND + irq / 8) ||| 1 <<< (irq % 8) ∧
      (∀ j, j ≠ R_IPND + irq / 8 → (ns202_raise n irq).reg j = n.reg j) ∧
      (ns202_raise n irq).pri = n.pri ∧
      (ns202_raise n irq).ct_l = n.ct_l ∧
      (ns202_raise n irq).ct_h = n.ct_h) := by
  constructor
  · intro h
    unfold ns202_raise
    simp only [h, ne_eq, not_false_eq_true, if_true]
  · intro h
    rw [ns202_raise_unfrozen n irq hirq h]
    refine ⟨?_, ?_, rfl, rfl, rfl⟩
    · have hlt : n.reg (R_IPND + irq / 8) ||| 1 <<< (irq % 8) < 2 ^ 8 :=
        Nat.or_lt_two_pow hbyte (irq_bit_lt irq)
      simp only [ns32202.setReg, if_true]
      exact Nat.mod_eq_of_lt hlt
    · intro j hj
      simp only [ns32202.setReg, hj, if_false]

/-- C11 on sample register files: raising source 11 sets bit 3 of the high pending
byte (register 7) and nothing in the low one; with the freeze bit set nothing moves. -/
theorem ns202_raise_pending_witness :
    (11 : Nat) < 16 ∧
    (ns202_raise zeroRegs 11).reg 7 = 0x08 ∧
    (ns202_raise zeroRegs 11).reg 6 = 0 ∧
    ns202_raise frozenRegs 11 = frozenRegs :=
  have h := ns202_raise_pending zeroRegs 11 (by decide) (by decide)
  have hf := ns202_raise_pending frozenRegs 11 (by decide) (by decide)
  ⟨by decide, (h.2 (by decide)).1, (h.2 (by decide)).2.1 6 (by decide),
    hf.1 (by decide)⟩

/-! ## C12: what the controller reset stores -/

/-- C12 fails as stated: after `ns202_write` has put `0x55` into `R_HVCT`,
`ns202_reset` leaves register 0 at `0x55`; it does not return to zero. -/
theorem ns202_reset_keeps_other_registers :
    (ns202_write zeroRegs 0x0000 0x55).reg 0 = 0x55 ∧
    (ns202_reset (ns202_write zeroRegs 0x0000 0x55)).reg 0 = 0x55 ∧
    (ns202_reset (ns202_write zeroRegs 0x0000 0x55)).reg 0 ≠ 0 := by
  refine ⟨rfl, rfl, by decide⟩

/-- C12 as amended. For every prior register file, after `ns202_reset` registers 10, 11
and 18 hold `0xFF` and each of the other 29 registers holds the value it held before
(so it holds 0 exactly when it held 0 before, as in the zero-initialised file). -/
theorem ns202_reset_registers (n : ns32202) :
    (ns202_reset n).reg 10 = 0xFF ∧
    (ns202_reset n).reg 11 = 0xFF ∧
    (ns202_reset n).reg 18 = 0xFF ∧
    (∀ i, i ≠ 10 → i ≠ 11 → i ≠ 18 → (ns202_reset n).reg i = n.reg i) ∧
    (∀ i, i ≠ 10 → i ≠ 11 → i ≠ 18 → (ns202_reset zeroRegs).reg i = 0) := by
  refine ⟨rfl, rfl, rfl, ?_, ?_⟩
  · intro i h10 h11 h18
    simp only [ns202_reset, ns32202.setReg, h10, h11, h18, if_false]
  · intro i h10 h11 h18
    simp only [ns202_reset, ns32202.setReg, h10, h11, h18, if_false, zeroRegs]

/-- C12 as amended, on the file holding `0x55` in register 0: the three stores are
made, register 0 keeps `0x55`, and from the zero file register 0 is 0. -/
theorem ns202_reset_registers_witness :
    (ns202_reset (ns202_write zeroRegs 0x0000 0x55)).reg 10 = 0xFF ∧
    (ns202_reset (ns202_write zeroRegs 0x0000 0x55)).reg 0 =
      (ns202_write zeroRegs 0x0000 0x55).reg 0 ∧
    (ns202_reset zeroRegs).reg 0 = 0 :=
  have h := ns202_reset_registers (ns202_write zeroRegs 0x0000 0x55)
  ⟨h.1, h.2.2.2.1 0 (by decide) (by decide) (by decide),
    h.2.2.2.2 0 (by decide) (by decide) (by decide)⟩

/-! ## C13: the mask registers after reset -/

/-- C13. For every prior register file, `ns202_reset` followed by `ns202_read` at an
address whose bits 8-12 are 10 or 11 (either mask register) yields `0xFF`. -/
theorem ns202_reset_then_read_mask (n : ns32202) (address : Nat)
    (h : (address >>> 8) &&& 0x1F = R_IMSK ∨ (address >>> 8) &&& 0x1F = R_IMSK + 1) :
    ns202_read (ns202_reset n) address = 0xFF := by
  rcases h with h | h
  · simp only [ns202_read, h]
    rfl
  · simp only [ns202_read, h]
    rfl

/-- C13 at the bus addresses `0x0A40` and `0x0B40`, from a file whose mask register
was first cleared by a write. -/
theorem ns202_reset_then_read_mask_witness :
    (0x0A40 >>> 8) &&& 0x1F = R_IMSK ∧ (0x0B40 >>> 8) &&& 0x1F = R_IMSK + 1 ∧
    ns202_read (ns202_reset (ns202_write zeroRegs 0x0A40 0x00)) 0x0A40 = 0xFF ∧
    ns202_read (ns202_reset zeroRegs) 0x0B40 = 0xFF :=
  ⟨by decide, by decide,
    ns202_reset_then_read_mask (ns202_write zeroRegs 0x0A40 0x00) 0x0A40
      (Or.inl (by decide)),
    ns202_reset_then_read_mask zeroRegs 0x0B40 (Or.inr (by decide))⟩

/-! ## C14: the clock write remap, bit by bit -/

theorem and_low4 (v k : Nat) (hk : 15 &&& k = k) : (v % 16) &&& k = v &&& k := by
  have h := Nat.and_pow_two_sub_one_eq_mod v 4
  have e : (v % 16) &&& k = (v &&& 15) &&& k := by rw [← h]
  rw [e, Nat.and_assoc, hk]

theorem rtc_remap_w_low4 (v : Nat) : rtc_remap_w (v % 16) = rtc_remap_w v := by
  unfold rtc_remap_w
  simp only [and_low4 v 1 rfl, and_low4 v 2 rfl, and_low4 v 4 rfl, and_low4 v 8 rfl]

theorem rtc_remap_w_spec_low4 (v : Nat) :
    rtc_remap_w_spec (v % 16) = rtc_remap_w_spec v := by
  have h : ∀ i, i < 4 → (v % 16).testBit i = v.testBit i := by
    intro i hi
    have := Nat.testBit_mod_two_pow v 4 i
    simpa [hi] using this
  unfold rtc_remap_w_spec
  rw [h 0 (by decide), h 1 (by decide), h 2 (by decide), h 3 (by decide)]

theorem rtc_remap_w_table :
    ∀ w, w < 16 → rtc_remap_w w = rtc_remap_w_spec w ∧
      rtc_remap_w w &&& 0xF0 = rtc_remap_w w := by
  decide

/-- C14. For every `v`, `rtc_remap_w v` is `0x80` if bit 0 of `v` is set, OR `0x20` if
bit 1 is clear, OR `0x40` if bit 2 is set, OR `0x10` if bit 3 is clear; it is the same
for `v` and for the low four bits of `v`; and it has no bit outside the mask `0xF0`. -/
theorem rtc_remap_w_bit_exact (v : Nat) :
    rtc_remap_w v = rtc_remap_w_spec v ∧
    rtc_remap_w v = rtc_remap_w (v &&& 0xF) ∧
    rtc_remap_w v &&& 0xF0 = rtc_remap_w v := by
  have hlt : v % 16 < 16 := Nat.mod_lt _ (by decide)
  have ht := rtc_remap_w_table (v % 16) hlt
  have hand : v &&& 0xF = v % 16 := Nat.and_pow_two_sub_one_eq_mod v 4
  rw [rtc_remap_w_low4, rtc_remap_w_spec_low4] at ht
  refine ⟨ht.1, ?_, ht.2⟩
  rw [hand, rtc_remap_w_low4]

/-! ## C15: the value delivered to the clock chip for `0x05` -/

/-- C15 fails as stated: `rtc_remap_w(0x05)` is `0xF0`, not `0xC0`, and that is the value
`rtc_write` receives when `0x05` is written to port `0x43` with the overlay collapsed.
In `0x05` bits 1 and 3 are clear, so the two active-low lines `0x20` and `0x10` are
set as well. -/
theorem rtc_remap_w_five :
    rtc_remap_w 0x05 = 0xF0 ∧ rtc_remap_w 0x05 ≠ 0xC0 ∧
    (cpu_write_byte logExt normal 0x3F0043 0x05).dev = [DevCall.rtc_write 0xF0] := by
  refine ⟨by decide, by decide, rfl⟩

/-- C15 as amended. With the overlay collapsed, writing `0x05` to an I/O address whose
low byte is `0x43` delivers `rtc_remap_w(0x05) = 0x80|0x40|0x20|0x10 = 0xF0` to the
clock chip and changes nothing but `u27` and the device state. (The value `0xC0` is
what `0x0F` maps to.) -/
theorem clock_write_five {D : Type} (E : Ext D) (s : Machine D) (address : Nat)
    (h : s.u27 &&& 0x80 ≠ 0) (hio : 0x3F0000 ≤ address &&& 0x3FFFFF)
    (hlo : address &&& 0xFF = 0x43) :
    cpu_write_byte E s address 0x05 =
      { s with u27 := shift_u27 s.u27, dev := E.rtc_write s.dev 0xF0 } ∧
    rtc_remap_w 0x05 = 0xF0 ∧ rtc_remap_w 0x0F = 0xC0 := by
  have e : address &&& 0x3FFFFF &&& 0xFF = 0x43 := by
    rw [and_3FFFFF, and_FF]
    rw [and_FF] at hlo
    omega
  have n1 : ¬ (address &&& 0x3FFFFF < 0x200000) := by omega
  have n3 : ¬ (address &&& 0x3FFFFF < 0x3F0000) := by omega
  have r5 : rtc_remap_w 0x05 = 0xF0 := by decide
  refine ⟨?_, r5, by decide⟩
  unfold cpu_write_byte
  simp only [h, n1, n3, e, r5, if_false]
  simp

/-- C15 as amended, on the collapsed recording machine: the clock chip receives the
single call `rtc_write(0xF0)`. -/
theorem clock_write_five_witness :
    normal.u27 &&& 0x80 ≠ 0 ∧
    (cpu_write_byte logExt normal 0x3F0043 0x05).dev = [DevCall.rtc_write 0xF0] :=
  have h := (clock_write_five logExt normal 0x3F0043 (by decide) (by decide)
    (by decide)).1
  ⟨by decide, by rw [h]; rfl⟩

/-! ## C16: the clock write remap is invertible -/

/-- C16. On the 16 four-bit logical values `rtc_remap_w` is injective, its values are
exactly the 16 multiples of `0x10` in `0x00..0xF0`, decoding an encoded value gives the
value back, and re-encoding the decoded physical value gives the same physical value. -/
theorem rtc_remap_w_bijection :
    (∀ v, v < 16 → ∀ w, w < 16 → rtc_remap_w v = rtc_remap_w w → v = w) ∧
    (∀ v, v < 16 → rtc_remap_w v < 0x100 ∧ rtc_remap_w v % 0x10 = 0) ∧
    (∀ k, k < 16 → ∃ v, v < 16 ∧ rtc_remap_w v = 0x10 * k) ∧
    (∀ v, v < 16 → rtc_remap_dec (rtc_remap_w v) = v) ∧
    (∀ v, v < 16 → rtc_remap_w (rtc_remap_dec (rtc_remap_w v)) = rtc_remap_w v) := by
  refine ⟨by decide, by decide, by decide, by decide, by decide⟩

/-- C16 at the logical value `0x05`: it encodes to `0xF0`, which decodes to `0x05`, and
`0x50` is the image of `0x0A`. -/
theorem rtc_remap_w_bijection_witness :
    (5 : Nat) < 16 ∧ rtc_remap_dec (rtc_remap_w 5) = 5 ∧
    rtc_remap_w (rtc_remap_dec 0xF0) = 0xF0 ∧
    (∃ v, v < 16 ∧ rtc_remap_w v = 0x50) :=
  ⟨by decide, rtc_remap_w_bijection.2.2.2.1 5 (by decide),
    rtc_remap_w_bijection.2.2.2.2 5 (by decide),
    rtc_remap_w_bijection.2.2.1 5 (by decide)⟩

/-! ## C17: the counter-interrupt-control register -/

/-- C17 (code evaluated at the failing input). Register 23 holds 0 and `0x86` is
written to it: bit 7 of the value is set and bit 3 is clear, so the low nibble should
stay 0 and only the high nibble be replaced. The code ORs in `value & 70` with the
decimal literal `70 = 0x46`, so the register becomes `0x06`: the low nibble has changed.
Likewise writing `0xB0` leaves the high nibble 0, where the mask `0x70` would have
stored `0x30`. -/
theorem ns202_cictl_high_half_write_changes_low_nibble :
    (0x1700 >>> 8) &&& 0x1F = R_CICTL ∧
    0x86 &&& 0x80 ≠ 0 ∧ 0x86 &&& 0x08 = 0 ∧
    zeroRegs.reg R_CICTL &&& 0x0F = 0 ∧
    (ns202_write zeroRegs 0x1700 0x86).reg R_CICTL = 0x06 ∧
    (ns202_write zeroRegs 0x1700 0x86).reg R_CICTL &&& 0x0F ≠
      zeroRegs.reg R_CICTL &&& 0x0F ∧
    (ns202_write zeroRegs 0x1700 0xB0).reg R_CICTL = 0x00 ∧
    (70 : Nat) = 0x46 := by
  refine ⟨by decide, by decide, by decide, by decide, rfl, by decide, rfl, rfl⟩

/-! ## C18: the counter-control register -/

/-- C18 (code evaluated at the failing input). Writing `0x03` to the counter-control
register (register 22, bus offset `0x1600`) stores `0x03`: bits 0 and 1 are set in the
stored byte and in a following read. For every register file and value the stored
byte is the value written, reduced to a byte: the preceding `&= 0xFC` is overwritten by
the plain assignment that follows it. -/
theorem ns202_cctl_write_keeps_low_bits :
    (0x1600 >>> 8) &&& 0x1F = R_CCTL ∧
    (ns202_write zeroRegs 0x1600 0x03).reg R_CCTL = 0x03 ∧
    (ns202_write zeroRegs 0x1600 0x03).reg R_CCTL &&& 0x03 ≠ 0 ∧
    ns202_read (ns202_write zeroRegs 0x1600 0x03) 0x1600 = 0x03 ∧
    (∀ (n : ns32202) (v : Nat), (ns202_write n 0x1600 v).reg R_CCTL = v % 256) := by
  refine ⟨by decide, rfl, by decide, rfl, ?_⟩
  intro n v
  have h : (0x1600 >>> 8) &&& 0x1F = 22 := by decide
  unfold ns202_write
  simp only [h]
  simp [ns32202.setReg, R_HVCT, R_SVCT, R_IPND, R_FPRT, R_CCTL]

/-! ## C19: the two orders of a long write -/

/-- A byte write outside I/O space with `u27 = 0xFF`: a store into RAM when the masked
address is below `0x200000`, nothing otherwise. -/
theorem write_FF_nonio {D : Type} (E : Ext D) (s : Machine D) (a v : Nat)
    (h : s.u27 = 0xFF) (ha : a &&& 0x3FFFFF < 0x3F0000) :
    cpu_write_byte E s a v =
      { s with ram := fun i =>
          if a &&& 0x3FFFFF < 0x200000 ∧ i = a &&& 0x3FFFFF then v % 256 else s.ram i } := by
  by_cases hlt : a &&& 0x3FFFFF < 0x200000
  · rw [write_FF_ram E s a v h hlt]
    simp only [Machine.setRam, hlt, true_and]
  · rw [write_collapsed_invalid E s a v (by rw [h]; decide) (by omega) ha, h, shift_u27_FF]
    cases s
    simp only at h
    subst h
    simp only [hlt, false_and, if_false]

/-- A word write outside I/O space with `u27 = 0xFF`, as a function on RAM. -/
theorem write_word_FF_nonio {D : Type} (E : Ext D) (s : Machine D) (a w : Nat)
    (h : s.u27 = 0xFF) (h0 : a &&& 0x3FFFFF < 0x3F0000)
    (h1 : (a + 1) &&& 0x3FFFFF < 0x3F0000) :
    cpu_write_word E s a w =
      { s with ram := fun i =>
          if (a + 1) &&& 0x3FFFFF < 0x200000 ∧ i = (a + 1) &&& 0x3FFFFF then
            (w &&& 0xFF) % 256
          else if a &&& 0x3FFFFF < 0x200000 ∧ i = a &&& 0x3FFFFF then (w >>> 8) % 256
          else s.ram i } := by
  have e0 : a &&& 0xFFFFFF &&& 0x3FFFFF = a &&& 0x3FFFFF := by
    rw [and_FFFFFF, and_3FFFFF, and_3FFFFF]; omega
  have e1 : ((a &&& 0xFFFFFF) + 1) &&& 0x3FFFFF = (a + 1) &&& 0x3FFFFF := by
    rw [and_FFFFFF, and_3FFFFF, and_3FFFFF]; omega
  unfold cpu_write_word
  simp only
  rw [write_FF_nonio E s _ _ h (by rw [e0]; exact h0), e0,
    write_FF_nonio E _ _ _ (by exact h) (by rw [e1]; exact h1), e1]

/-- C19. For every machine with `u27 = 0xFF`, every address `a` whose four byte
addresses `a .. a + 3` lie outside I/O space after masking, and every value `v`,
`cpu_write_pd(a, v)` (low word first) and `cpu_write_long(a, v)` (high word first)
leave the same machine: RAM, overlay register, configuration and controller registers
and device state. -/
theorem write_pd_eq_write_long {D : Type} (E : Ext D) (s : Machine D) (a v : Nat)
    (h : s.u27 = 0xFF)
    (h0 : a &&& 0x3FFFFF < 0x3F0000) (h1 : (a + 1) &&& 0x3FFFFF < 0x3F0000)
    (h2 : (a + 2) &&& 0x3FFFFF < 0x3F0000) (h3 : (a + 3) &&& 0x3FFFFF < 0x3F0000) :
    cpu_write_pd E s a v = cpu_write_long E s a v := by
  have e0 : a &&& 0xFFFFFF &&& 0x3FFFFF = a &&& 0x3FFFFF := by
    rw [and_FFFFFF, and_3FFFFF, and_3FFFFF]; omega
  have e1 : ((a &&& 0xFFFFFF) + 1) &&& 0x3FFFFF = (a + 1) &&& 0x3FFFFF := by
    rw [and_FFFFFF, and_3FFFFF, and_3FFFFF]; omega
  have e2 : ((a &&& 0xFFFFFF) + 2) &&& 0x3FFFFF = (a + 2) &&& 0x3FFFFF := by
    rw [and_FFFFFF, and_3FFFFF, and_3FFFFF]; omega
  have e3 : ((a &&& 0xFFFFFF) + 2 + 1) &&& 0x3FFFFF = (a + 3) &&& 0x3FFFFF := by
    rw [and_FFFFFF, and_3FFFFF, and_3FFFFF]; omega
  have d01 : a &&& 0x3FFFFF ≠ (a + 1) &&& 0x3FFFFF := by
    rw [and_3FFFFF, and_3FFFFF]; omega
  have d02 : a &&& 0x3FFFFF ≠ (a + 2) &&& 0x3FFFFF := by
    rw [and_3FFFFF, and_3FFFFF]; omega
  have d03 : a &&& 0x3FFFFF ≠ (a + 3) &&& 0x3FFFFF := by
    rw [and_3FFFFF, and_3FFFFF]; omega
  have d12 : (a + 1) &&& 0x3FFFFF ≠ (a + 2) &&& 0x3FFFFF := by
    rw [and_3FFFFF, and_3FFFFF]; omega
  have d13 : (a + 1) &&& 0x3FFFFF ≠ (a + 3) &&& 0x3FFFFF := by
    rw [and_3FFFFF, and_3FFFFF]; omega
  have d23 : (a + 2) &&& 0x3FFFFF ≠ (a + 3) &&& 0x3FFFFF := by
    rw [and_3FFFFF, and_3FFFFF]; omega
  have hl : cpu_write_long E s a v =
      { s with ram := fun i =>
          if (a + 3) &&& 0x3FFFFF < 0x200000 ∧ i = (a + 3) &&& 0x3FFFFF then
            ((v &&& 0xFFFF) &&& 0xFF) % 256
          else if (a + 2) &&& 0x3FFFFF < 0x200000 ∧ i = (a + 2) &&& 0x3FFFFF then
            ((v &&& 0xFFFF) >>> 8) % 256
          else if (a + 1) &&& 0x3FFFFF < 0x200000 ∧ i = (a + 1) &&& 0x3FFFFF then
            ((v >>> 16) &&& 0xFF) % 256
          else if a &&& 0x3FFFFF < 0x200000 ∧ i = a &&& 0x3FFFFF then
            ((v >>> 16) >>> 8) % 256
          else s.ram i } := by
    unfold cpu_write_long
    simp only
    rw [write_word_FF_nonio E s _ _ h (by rw [e0]; exact h0) (by rw [e1]; exact h1),
      e0, e1,
      write_word_FF_nonio E _ _ _ (by exact h) (by rw [e2]; exact h2)
        (by rw [e3]; exact h3), e2, e3]
  have hp : cpu_write_pd E s a v =
      { s with ram := fun i =>
          if (a + 1) &&& 0x3FFFFF < 0x200000 ∧ i = (a + 1) &&& 0x3FFFFF then
            ((v >>> 16) &&& 0xFF) % 256
          else if a &&& 0x3FFFFF < 0x200000 ∧ i = a &&& 0x3FFFFF then
            ((v >>> 16) >>> 8) % 256
          else if (a + 3) &&& 0x3FFFFF < 0x200000 ∧ i = (a + 3) &&& 0x3FFFFF then
            ((v &&& 0xFFFF) &&& 0xFF) % 256
          else if (a + 2) &&& 0x3FFFFF < 0x200000 ∧ i = (a + 2) &&& 0x3FFFFF then
            ((v &&& 0xFFFF) >>> 8) % 256
          else s.ram i } := by
    unfold cpu_write_pd
    simp only
    rw [write_word_FF_nonio E s _ _ h (by rw [e2]; exact h2) (by rw [e3]; exact h3),
      e2, e3,
      write_word_FF_nonio E _ _ _ (by exact h) (by rw [e0]; exact h0)
        (by rw [e1]; exact h1), e0, e1]
  rw [hl, hp]
  congr 1
  funext i
  generalize a &&& 0x3FFFFF = m0 at *
  generalize (a + 1) &&& 0x3FFFFF = m1 at *
  generalize (a + 2) &&& 0x3FFFFF = m2 at *
  generalize (a + 3) &&& 0x3FFFFF = m3 at *
  split_ifs <;> first | rfl | (exfalso; omega)

/-- C19 on the collapsed recording machine: a long that straddles the end of RAM
(`0x1FFFFE .. 0x200001`) is written identically in both orders, and the two RAM bytes
hold the high word. -/
theorem write_pd_eq_write_long_witness :
    normal.u27 = 0xFF ∧
    cpu_write_pd logExt normal 0x1FFFFE 0xDEADBEEF =
      cpu_write_long logExt normal 0x1FFFFE 0xDEADBEEF ∧
    (cpu_write_pd logExt normal 0x1FFFFE 0xDEADBEEF).ram 0x1FFFFF = 0xAD :=
  have h := write_pd_eq_write_long logExt normal 0x1FFFFE 0xDEADBEEF rfl (by decide)
    (by decide) (by decide) (by decide)
  ⟨rfl, h, by rw [h]; rfl⟩

/-! ## C20: the bus decodes 22 address bits -/

/-- C20. For every machine, address `a`, debug flag and value, a byte read at
`a + 0x400000` returns the same value and the same machine as the read at `a`, and a
byte write at `a + 0x400000` leaves the same machine as the write at `a`; the same
holds when the sum wraps modulo `2^32`. -/
theorem access_mod_2_22 {D : Type} (E : Ext D) (s : Machine D) (a debug v : Nat) :
    do_cpu_read_byte E s (a + 0x400000) debug = do_cpu_read_byte E s a debug ∧
    cpu_write_byte E s (a + 0x400000) v = cpu_write_byte E s a v ∧
    do_cpu_read_byte E s ((a + 0x400000) % 2 ^ 32) debug = do_cpu_read_byte E s a debug ∧
    cpu_write_byte E s ((a + 0x400000) % 2 ^ 32) v = cpu_write_byte E s a v := by
  have h : (a + 0x400000) &&& 0x3FFFFF = a &&& 0x3FFFFF := by
    rw [and_3FFFFF, and_3FFFFF]
    omega
  have hw : (a + 0x400000) % 2 ^ 32 &&& 0x3FFFFF = a &&& 0x3FFFFF := by
    rw [and_3FFFFF, and_3FFFFF]
    omega
  exact ⟨read_congr E s _ _ debug h, write_congr E s _ _ v h,
    read_congr E s _ _ debug hw, write_congr E s _ _ v hw⟩

end Mini68k
